import Mathlib

/-!
Shallow embedding of the HuggingFace batch-upload-commit endpoint of
CloudFlare-ImgBed (source: the batch handler module and
functions/utils/mimeType.js), together with theorems settling the frozen
claims about it.

JavaScript strings are modelled as Lean `String` (sequences of `Char`);
JS string primitives (trim, replace of the specific regexes used,
split, startsWith, indexOf) are implemented below on `List Char`.
JS numbers that only ever hold sizes/counts are modelled as `Nat`.
Host primitives that are external to the repository (the key-value
database adapter, JSON.parse, the HuggingFace API client, moderation,
image sniffing, Math.random) are modelled as oracle fields of an
environment record; the handler is a pure function of that record.
-/

namespace ImgBed

/-- The set of characters removed by the JavaScript `String.prototype.trim`
and matched by the regex class `\s` (ECMAScript WhiteSpace plus
LineTerminator). -/
def jsWhitespace (c : Char) : Bool :=
  c = '\t' || c = '\n' || c = '\x0b' || c = '\x0c' || c = '\r' || c = ' ' ||
  c = '\u00A0' || c = '\u1680' ||
  ('\u2000' ≤ c && c ≤ '\u200A') ||
  c = '\u2028' || c = '\u2029' || c = '\u202F' || c = '\u205F' ||
  c = '\u3000' || c = '\uFEFF'

/-- ASCII whitespace, as stripped by the forgiving-base64 decode used by
`atob` (TAB, LF, FF, CR, SPACE). -/
def asciiWhitespace (c : Char) : Bool :=
  c = '\t' || c = '\n' || c = '\x0c' || c = '\r' || c = ' '

/-- ECMAScript LineTerminator characters (not matched by `.` in a regex). -/
def lineTerminatorChar (c : Char) : Bool :=
  c = '\n' || c = '\r' || c = '\u2028' || c = '\u2029'

/-- Drop trailing characters satisfying `p` (helper for `trim`-style ops). -/
def dropTrailing (p : Char → Bool) (l : List Char) : List Char :=
  (l.reverse.dropWhile p).reverse

/-- JS `String.prototype.trim` on a character list. -/
def jsTrimList (l : List Char) : List Char :=
  dropTrailing jsWhitespace (l.dropWhile jsWhitespace)

/-- JS `String.prototype.trim`. -/
def jsTrim (s : String) : String :=
  ⟨jsTrimList s.data⟩

/-- JS `a.startsWith(b)`. -/
def strStartsWith (s p : String) : Bool :=
  p.data.isPrefixOf s.data

/-! ## Base64 (the host `atob`, forgiving-base64 per the WHATWG infra spec) -/

/-- Characters of the base64 alphabet (excluding padding). -/
def isB64Char (c : Char) : Bool :=
  ('A' ≤ c && c ≤ 'Z') || ('a' ≤ c && c ≤ 'z') || ('0' ≤ c && c ≤ '9') ||
  c = '+' || c = '/'

/-- Value of a base64 alphabet character. -/
def b64Val (c : Char) : Nat :=
  if 'A' ≤ c ∧ c ≤ 'Z' then c.toNat - 65
  else if 'a' ≤ c ∧ c ≤ 'z' then c.toNat - 71
  else if '0' ≤ c ∧ c ≤ '9' then c.toNat + 4
  else if c = '+' then 62
  else if c = '/' then 63
  else 0

/-- Decode a padding-free base64 string four characters at a time; a final
chunk of two characters yields one byte and of three characters two bytes
(a final chunk of one character never occurs on inputs `atob` accepts). -/
def decodeChunks : List Char → List Nat
  | [] => []
  | [_] => []
  | [c1, c2] => [b64Val c1 * 4 + b64Val c2 / 16]
  | [c1, c2, c3] =>
      [b64Val c1 * 4 + b64Val c2 / 16, (b64Val c2 % 16) * 16 + b64Val c3 / 4]
  | c1 :: c2 :: c3 :: c4 :: rest =>
      (b64Val c1 * 4 + b64Val c2 / 16) ::
      ((b64Val c2 % 16) * 16 + b64Val c3 / 4) ::
      ((b64Val c3 % 4) * 64 + b64Val c4) ::
      decodeChunks rest

/-- Number of trailing `=` padding characters recognised at the end of the
input: 2 for a `==` suffix, 1 for a single `=`, 0 otherwise.  This is the
same discrimination the source's `estimateBase64Size` performs with
`endsWith('==')` / `endsWith('=')`. -/
def padCount (l : List Char) : Nat :=
  match l.reverse with
  | '=' :: '=' :: _ => 2
  | '=' :: _ => 1
  | _ => 0

/-- Forgiving-base64 padding removal: when the length is a multiple of four,
up to two trailing `=` are removed. -/
def stripB64Padding (d : List Char) : List Char :=
  if d.length % 4 = 0 then d.take (d.length - padCount d) else d

/-- The host `atob`: strip ASCII whitespace, strip permitted padding, reject
a length ≡ 1 (mod 4) and any character outside the base64 alphabet, then
decode.  `none` models the `DOMException` thrown on malformed input. -/
def atobStr (s : List Char) : Option (List Nat) :=
  let core := stripB64Padding (s.filter (fun c => !asciiWhitespace c))
  if core.length % 4 = 1 then none
  else if core.all isB64Char then some (decodeChunks core) else none

/-! ## Errors (`createApiError` and the error objects thrown by the handler) -/

/-- A JS `Error` decorated by `createApiError` (or by the backend client):
`code`/`status`/`stage`/`retryAfterSeconds` may be absent on errors coming
from outside `createApiError`; `uploadedFiles` carries `(name, filePath)`
pairs on commit-stage errors. -/
structure ApiError where
  code : Option String
  message : String
  status : Option Nat
  stage : Option String
  retryAfterSeconds : Option Nat
  uploadedFiles : List (String × String)
deriving DecidableEq

/-- `createApiError(code, message, status)` with no extra fields. -/
def createApiError (code msg : String) (status : Nat) : ApiError :=
  ⟨some code, msg, some status, none, none, []⟩

/-! ## Normalizer (pure helpers of the batch handler module) -/

/-- Drop leading slashes: the `replace(/^\/+/, '')` step. -/
def dropLeadingSlashes (l : List Char) : List Char :=
  l.dropWhile (fun c => c = '/')

/-- Drop trailing slashes: the `replace(/\/+$/, '')` step. -/
def dropTrailingSlashes (l : List Char) : List Char :=
  dropTrailing (fun c => c = '/') l

/-- Collapse every run of two or more slashes to a single slash: the
`replace(/\/{2,}/g, '/')` step. -/
def collapseSlashes : List Char → List Char
  | [] => []
  | [c] => [c]
  | a :: b :: rest =>
      if a = '/' ∧ b = '/' then collapseSlashes (b :: rest)
      else a :: collapseSlashes (b :: rest)

/-- `normalized.split('/')` (JS split on a single-character separator). -/
def splitSlash : List Char → List (List Char)
  | [] => [[]]
  | c :: rest =>
      match splitSlash rest with
      | [] => [[c]]
      | h :: t => if c = '/' then [] :: h :: t else (c :: h) :: t

/-- A folder segment the source rejects with "illegal path segment":
empty, `.` or `..`. -/
def segIllegal (seg : List Char) : Bool :=
  seg.isEmpty || seg = ['.'] || seg = ['.', '.']

/-- A folder segment the source rejects (either kind). -/
def segBad (seg : List Char) : Bool :=
  segIllegal seg || "manage@".data.isPrefixOf seg

def folderIllegalSegmentError : ApiError :=
  createApiError "INVALID_REQUEST"
    "Invalid uploadFolder: contains illegal path segment" 400

def folderReservedSegmentError : ApiError :=
  createApiError "INVALID_REQUEST" "Invalid uploadFolder: reserved segment name" 400

/-- Core of `normalizeUploadFolder` on an actual string: trim, strip
leading/trailing slashes, collapse repeated slashes, then validate every
`/`-separated segment.  The thrown `createApiError` is the `Except.error`. -/
def normCore (s : String) : Except ApiError String :=
  let t := collapseSlashes (dropTrailingSlashes (dropLeadingSlashes (jsTrimList s.data)))
  if t = [] then .ok ""
  else
    match (splitSlash t).find? segBad with
    | some seg => if segIllegal seg then .error folderIllegalSegmentError
                  else .error folderReservedSegmentError
    | none => .ok ⟨t⟩

/-- `normalizeUploadFolder`: `none` models the `null`/`undefined` input (the
coercion `String(x)` of other non-string values is not modelled). -/
def normalizeUploadFolder (u : Option String) : Except ApiError String :=
  match u with
  | none => .ok ""
  | some s => normCore s

/-- `normalizeFileName`: `none` models a non-string `name`.  NOTE: the JS
`length` counts UTF-16 code units; here `String.length` counts characters,
which agrees on the basic multilingual plane. -/
def normalizeFileName (n : Option String) : Except ApiError String :=
  match n with
  | none => .error (createApiError "INVALID_REQUEST" "File name must be a string" 400)
  | some s =>
      let t := jsTrim s
      if t = "" then
        .error (createApiError "INVALID_REQUEST" "File name cannot be empty" 400)
      else if t.length > 255 then
        .error (createApiError "INVALID_REQUEST" "File name is too long" 400)
      else if t = "." ∨ t = ".." then
        .error (createApiError "INVALID_REQUEST" "File name cannot be . or .." 400)
      else if '/' ∈ t.data ∨ '\\' ∈ t.data then
        .error (createApiError "INVALID_REQUEST" "File name cannot contain path separators" 400)
      else if strStartsWith t "manage@" then
        .error (createApiError "INVALID_REQUEST" "File name cannot use reserved prefix" 400)
      else .ok t

/-- The batch module's `normalizeMimeType` (distinct from the one in
`functions/utils/mimeType.js`): trim, defaulting to the generic binary
type on a missing/blank value. -/
def normalizeMimeType (m : Option String) : String :=
  match m with
  | none => "application/octet-stream"
  | some s => if jsTrim s = "" then "application/octet-stream" else jsTrim s

/-- First index of `,` in the list, if any (JS `indexOf(',')`). -/
def firstCommaSplit (l : List Char) : Option (List Char) :=
  match l with
  | [] => none
  | c :: rest => if c = ',' then some rest else firstCommaSplit rest

def contentRequiredError : ApiError :=
  createApiError "INVALID_REQUEST" "contentBase64 is required" 400

/-- `normalizeContentBase64`: require a non-blank string; when the value is a
data URL (starts with `data:` and contains a comma) keep only the part after
the first comma; strip every whitespace character (`replace(/\s+/g, '')`). -/
def normalizeContentBase64 (c : Option String) : Except ApiError String :=
  match c with
  | none => .error contentRequiredError
  | some s =>
      if jsTrim s = "" then .error contentRequiredError
      else
        let v := (jsTrim s).data
        let raw :=
          if "data:".data.isPrefixOf v then
            match firstCommaSplit v with
            | some after => after
            | none => v
          else v
        .ok ⟨raw.filter (fun ch => !jsWhitespace ch)⟩

/-- `estimateBase64Size`: `floor(len*3/4)` minus the `=`-padding count,
floored at zero (`Nat` subtraction models the `Math.max(0, ...)`). -/
def estimateBase64Size (s : String) : Nat :=
  if s.data.length = 0 then 0
  else s.data.length * 3 / 4 - padCount s.data

def invalidBase64Error : ApiError :=
  createApiError "INVALID_REQUEST" "Invalid base64 content" 400

/-- `decodeBase64ToUint8Array`: an `atob` failure is rethrown as a 400
`INVALID_REQUEST`; on success the decoded bytes are returned. -/
def decodeBase64ToUint8Array (b64 : String) : Except ApiError (List Nat) :=
  match atobStr b64.data with
  | none => .error invalidBase64Error
  | some bytes => .ok bytes

/-! ## JSON values (results of the host `JSON.parse`, bodies of responses) -/

/-- A parsed JSON value.  JSON numbers are modelled as `Int` (no claim
inspects fractional values). -/
inductive JsonValue where
  | null
  | bool (b : Bool)
  | num (n : Int)
  | str (s : String)
  | arr (xs : List JsonValue)
  | obj (fields : List (String × JsonValue))

/-- Property read on a JSON value: `undefined` (absence, or a read on a
non-object) is `none`. -/
def getField : JsonValue → String → Option JsonValue
  | .obj fields, k => (fields.find? (fun p => p.1 = k)).map (fun p => p.2)
  | _, _ => none

/-- JS truthiness of a parsed JSON value. -/
def jsTruthy : JsonValue → Bool
  | .null => false
  | .bool b => b
  | .num n => n ≠ 0
  | .str s => s ≠ ""
  | .arr _ => true
  | .obj _ => true

/-- `typeof payload === 'object'` for a parsed JSON value combined with
truthiness: the replay branch is taken exactly for objects and arrays
(`typeof null` is `'object'` but `null` is falsy). -/
def isReplayableJson : JsonValue → Bool
  | .obj _ => true
  | .arr _ => true
  | _ => false

/-- Set the `idempotent` field of an object's field list to `true`
(overwrite in place if present, else append, as a JS property write does). -/
def setIdemFields (fields : List (String × JsonValue)) : List (String × JsonValue) :=
  if fields.any (fun p => p.1 = "idempotent") then
    fields.map (fun p => if p.1 = "idempotent" then (p.1, .bool true) else p)
  else fields ++ [("idempotent", .bool true)]

/-- `payload.idempotent = true` followed by `JSON.stringify(payload)`: on an
object the field is set; on an array the write creates a non-index property
that `JSON.stringify` ignores, so the serialized payload is unchanged.
Other values never reach this code path. -/
def setIdempotentFlag : JsonValue → JsonValue
  | .obj fields => .obj (setIdemFields fields)
  | v => v

/-- `extractCommitId`'s `a || b || ... || null` chain: first truthy value. -/
def firstTruthy : List (Option JsonValue) → JsonValue
  | [] => .null
  | some v :: rest => if jsTruthy v then v else firstTruthy rest
  | none :: rest => firstTruthy rest

/-- `extractCommitId(commitResult)`. -/
def extractCommitId (commitResult : JsonValue) : JsonValue :=
  firstTruthy
    [ (getField commitResult "commit").bind (fun c => getField c "oid"),
      (getField commitResult "commit").bind (fun c => getField c "id"),
      getField commitResult "commitOid",
      getField commitResult "oid" ]

/-! ## URL encoding (`encodeFileIdForUrl`) -/

def hexDigitChar (n : Nat) : Char :=
  if n < 10 then Char.ofNat (48 + n) else Char.ofNat (55 + n)

/-- UTF-8 bytes of a character (as `encodeURIComponent` percent-encodes). -/
def utf8Bytes (c : Char) : List Nat :=
  let n := c.toNat
  if n < 128 then [n]
  else if n < 2048 then [192 + n / 64, 128 + n % 64]
  else if n < 65536 then [224 + n / 4096, 128 + n / 64 % 64, 128 + n % 64]
  else [240 + n / 262144, 128 + n / 4096 % 64, 128 + n / 64 % 64, 128 + n % 64]

/-- Characters `encodeURIComponent` leaves unescaped. -/
def uriUnreserved (c : Char) : Bool :=
  ('A' ≤ c && c ≤ 'Z') || ('a' ≤ c && c ≤ 'z') || ('0' ≤ c && c ≤ '9') ||
  c = '-' || c = '_' || c = '.' || c = '!' || c = '~' || c = '*' ||
  c = '\'' || c = '(' || c = ')'

def encodeURIComponent (s : String) : String :=
  ⟨s.data.flatMap (fun c =>
    if uriUnreserved c then [c]
    else (utf8Bytes c).flatMap (fun b => ['%', hexDigitChar (b / 16), hexDigitChar (b % 16)]))⟩

def joinSlash : List (List Char) → List Char
  | [] => []
  | [x] => x
  | x :: rest => x ++ '/' :: joinSlash rest

/-- `encodeFileIdForUrl`: encode each `/`-separated segment. -/
def encodeFileIdForUrl (fileId : String) : String :=
  ⟨joinSlash ((splitSlash fileId.data).map (fun seg => (encodeURIComponent ⟨seg⟩).data))⟩

/-! ## Data model of the batch pipeline -/

/-- One raw entry of the `files` array.  A `none` field models a missing or
non-string JS value. -/
structure FileInput where
  name : Option String
  mimeType : Option String
  contentBase64 : Option String
  sha256 : Option String

/-- The per-file metadata record drafted during preparation and completed
after the commit.  The human-readable `FileSize` string
(`(bytes/1024/1024).toFixed(2)`) is floating-point formatting and is not
modelled; `FileSizeBytes` is. -/
structure Metadata where
  fileName : String
  fileType : String
  fileSizeBytes : Nat
  uploadIP : String
  uploadAddress : String
  listType : String
  timeStamp : Nat
  label : String
  directory : String
  tags : List String
  width : Option Nat
  height : Option Nat
  channel : Option String
  channelName : Option String
  hfRepo : Option String
  hfFilePath : Option String
  hfToken : Option String
  hfIsPrivate : Option Bool
  hfFileUrl : Option String

/-- A transaction-ready unit built by the prepare loop. -/
structure PreparedFile where
  name : String
  fullId : String
  filePath : String
  mimeType : String
  bytes : List Nat
  contentBase64 : String
  precomputedSha256 : Option String
  metadata : Metadata

/-- The full target path: `folder/name`, or `name` for the empty folder. -/
def mkFullId (folder name : String) : String :=
  if folder = "" then name else folder ++ "/" ++ name

/-- Context of the prepare loop (limits and the request-scoped values
captured before it). -/
structure PrepCtx where
  folder : String
  maxSingleFileSize : Nat
  maxTotalSize : Nat
  uploadIp : String
  uploadAddress : String
  now : Nat
  imageDims : String → List Nat → Option (Nat × Nat)

def emptyContentError (i : Nat) : ApiError :=
  createApiError "INVALID_REQUEST" s!"files[{i}] has empty content" 400

def tooLargeSingleError (i m : Nat) : ApiError :=
  createApiError "INVALID_REQUEST"
    s!"files[{i}] exceeds max single file size limit ({m} bytes)" 400

def totalSizeError (m : Nat) : ApiError :=
  createApiError "INVALID_REQUEST" s!"Total files size exceeds limit ({m} bytes)" 400

def reservedPathError (i : Nat) : ApiError :=
  createApiError "INVALID_REQUEST" s!"files[{i}] uses reserved path" 400

def dupPathError (fullId : String) : ApiError :=
  createApiError "INVALID_REQUEST" ("Duplicate target path in files: " ++ fullId) 400

/-- `fileInput.sha256` handling: a non-blank string is trimmed and kept. -/
def normalizeSha256 (v : Option String) : Option String :=
  match v with
  | some s => if jsTrim s = "" then none else some (jsTrim s)
  | none => none

/-- Metadata draft built inside the loop. -/
def mkMetadataDraft (ctx : PrepCtx) (name mime : String) (sizeBytes : Nat)
    (dims : Option (Nat × Nat)) : Metadata :=
  { fileName := name
    fileType := mime
    fileSizeBytes := sizeBytes
    uploadIP := ctx.uploadIp
    uploadAddress := ctx.uploadAddress
    listType := "None"
    timeStamp := ctx.now
    label := "None"
    directory := if ctx.folder = "" then "" else ctx.folder ++ "/"
    tags := []
    width := dims.map (fun d => d.1)
    height := dims.map (fun d => d.2)
    channel := none
    channelName := none
    hfRepo := none
    hfFilePath := none
    hfToken := none
    hfIsPrivate := none
    hfFileUrl := none }

/-- The prepare loop of `onRequestPost` (lines 352-425 of the handler):
normalize each entry, enforce the per-file and incremental total budgets,
reject reserved and duplicate target paths, decode, sniff image dimensions
(failures swallowed, modelled by the `imageDims` oracle returning `none`),
and accumulate `PreparedFile`s.  `i` is the index used in error messages,
`total` the running estimated byte total, `seen` the set of target paths
already taken. -/
def prepareFiles (ctx : PrepCtx) : Nat → Nat → List String → List FileInput →
    Except ApiError (List PreparedFile)
  | _, _, _, [] => .ok []
  | i, total, seen, f :: rest =>
    match normalizeFileName f.name with
    | .error e => .error e
    | .ok name =>
      let mime := normalizeMimeType f.mimeType
      match normalizeContentBase64 f.contentBase64 with
      | .error e => .error e
      | .ok b64 =>
        let est := estimateBase64Size b64
        if est = 0 then .error (emptyContentError i)
        else if est > ctx.maxSingleFileSize then
          .error (tooLargeSingleError i ctx.maxSingleFileSize)
        else if total + est > ctx.maxTotalSize then
          .error (totalSizeError ctx.maxTotalSize)
        else
          let fullId := mkFullId ctx.folder name
          if strStartsWith fullId "manage@" then .error (reservedPathError i)
          else if fullId ∈ seen then .error (dupPathError fullId)
          else
            match decodeBase64ToUint8Array b64 with
            | .error e => .error e
            | .ok bytes =>
              let dims :=
                if strStartsWith mime "image/" then
                  ctx.imageDims mime
                    (if bytes.length > 65536 then bytes.take 65536 else bytes)
                else none
              let pf : PreparedFile :=
                { name := name
                  fullId := fullId
                  filePath := fullId
                  mimeType := mime
                  bytes := bytes
                  contentBase64 := b64
                  precomputedSha256 := normalizeSha256 f.sha256
                  metadata := mkMetadataDraft ctx name mime bytes.length dims }
              match prepareFiles ctx (i + 1) (total + est) (fullId :: seen) rest with
              | .error e => .error e
              | .ok more => .ok (pf :: more)

/-! ## Channels, request body, environment -/

/-- A configured HuggingFace channel.  `name` may be absent; `token`/`repo`
use `""` for the absent/empty (falsy) case the source tests with
`!hfChannel.token || !hfChannel.repo`. -/
structure Channel where
  name : Option String
  token : String
  repo : String
  isPrivate : Bool

/-- `uploadConfig.huggingface`. -/
structure HfSettings where
  channels : List Channel
  loadBalanceEnabled : Bool

/-- The parsed request body.  `none` in `files` models a missing or
non-array value; `none` in the string fields models `null`/`undefined`
(and for `requestId` any non-string). -/
structure ReqBody where
  uploadFolder : Option String
  channelName : Option String
  files : Option (List FileInput)
  commitMessage : Option String
  requestId : Option String

/-- The per-file argument passed to `uploadFilesInSingleCommit` (the Blob is
its bytes plus mime type). -/
structure CommitFile where
  name : String
  fileBytes : List Nat
  fileMime : String
  filePath : String
  precomputedSha256 : Option String
  contentBase64 : String

/-- A value written to the key-value store: the empty-string file record
with its metadata, or the serialized idempotency payload. -/
inductive PutVal where
  | meta (m : Metadata)
  | payload (v : JsonValue)

/-- An HTTP JSON response (the constant CORS headers of `jsonResponse` are
not modelled). -/
structure HttpResponse where
  status : Nat
  body : JsonValue

/-- The observable outcome of one handler run: the response plus the traces
of externally visible effects (number of `uploadFilesInSingleCommit`
invocations, `db.delete` keys, `db.put` writes in order, and the
`waitUntil(endUpload(...))` schedulings). -/
structure HandlerResult where
  response : HttpResponse
  commits : Nat
  deletes : List String
  puts : List (String × PutVal)
  scheduled : List (String × Metadata)

/-- The ambient environment of one request: request data plus every host /
collaborator the handler calls.  `randomIndex` models `Math.random`'s pick
(reduced mod the channel count, which is what
`Math.floor(Math.random()*channels.length)` produces); `commitCall` models
`HuggingFaceAPI.uploadFilesInSingleCommit` (from a module outside this
source tree), `moderate` returning `none` models a thrown moderation error,
`imageDims` returning `none` a failed or dimensionless sniff. -/
structure Env where
  authOk : Bool
  body : Option ReqBody
  maxFiles : Nat
  maxTotalSize : Nat
  maxSingleFileSize : Nat
  dbGet : String → Option String
  parseJson : String → Option JsonValue
  uploadConfig : Option HfSettings
  moderateEnabled : Bool
  randomIndex : Nat
  uploadIp : String
  uploadAddress : String
  now : Nat
  imageDims : String → List Nat → Option (Nat × Nat)
  commitCall : List CommitFile → String → Except ApiError JsonValue
  getFileURL : String → String
  hostname : String
  moderate : String → Option String

/-! ## Responses and error classification -/

def jsonResponse (body : JsonValue) (status : Nat) : HttpResponse :=
  ⟨status, body⟩

def mkErrorBody (code msg : String) : JsonValue :=
  .obj [("success", .bool false), ("code", .str code), ("error", .str msg)]

/-- JS `x || d` on an optional number (0 is falsy). -/
def natOrDefault (o : Option Nat) (d : Nat) : Nat :=
  match o with
  | some n => if n = 0 then d else n
  | none => d

/-- JS `x || null` on an optional number, serialized. -/
def optNatJson (o : Option Nat) : JsonValue :=
  match o with
  | some n => if n = 0 then .null else .num n
  | none => .null

/-- JS `s || d` on an optional string ("" is falsy). -/
def jsStrOr (o : Option String) (d : String) : String :=
  match o with
  | some s => if s = "" then d else s
  | none => d

/-- JS `s || null` on an optional string, serialized. -/
def jsStrOrNull (o : Option String) : JsonValue :=
  match o with
  | some s => if s = "" then .null else .str s
  | none => .null

/-- `toErrorResponse(error)` (always called with the default
`fallbackCode = 'INTERNAL_ERROR'`): classify by code, then status 429,
then status 401/403, then the `commit` stage marker, else internal. -/
def toErrorResponse (e : ApiError) : HttpResponse :=
  if e.code = some "INVALID_REQUEST" then
    jsonResponse (mkErrorBody "INVALID_REQUEST" e.message) (natOrDefault e.status 400)
  else if e.status = some 429 then
    jsonResponse (.obj
      [("success", .bool false), ("code", .str "RATE_LIMIT"),
       ("error", .str e.message),
       ("retryAfterSeconds", optNatJson e.retryAfterSeconds)]) 429
  else if e.status = some 401 ∨ e.status = some 403 then
    jsonResponse (mkErrorBody "AUTH_ERROR" e.message) 401
  else if e.stage = some "commit" then
    jsonResponse (.obj
      [("success", .bool false), ("code", .str "PARTIAL_UPLOAD_NOT_COMMITTED"),
       ("error", .str e.message),
       ("retryAfterSeconds", optNatJson e.retryAfterSeconds),
       ("uploadedFiles", .arr (e.uploadedFiles.map (fun p =>
          .obj [("name", .str p.1), ("filePath", .str p.2)])))]) 502
  else
    jsonResponse (.obj
      [("success", .bool false), ("code", .str "INTERNAL_ERROR"),
       ("error", .str (if e.message = "" then "Unknown error" else e.message))]) 500

/-! ## Handler stages -/

def requestIdErrorResponse : HttpResponse :=
  jsonResponse
    (mkErrorBody "INVALID_REQUEST" "requestId must be a non-empty string up to 128 chars") 400

/-- The `requestId` shape gate: absent is fine; present must be a non-blank
string of at most 128 characters. -/
def checkRequestId : Option String → Except HttpResponse (Option String)
  | none => .ok none
  | some r => if jsTrim r = "" ∨ r.length > 128 then .error requestIdErrorResponse
              else .ok (some r)

/-- The reserved-namespace ledger key for a request identifier. -/
def idemKey (rid : String) : String := "manage@hf_batch_request@" ++ rid

/-- Outcome of the idempotency-ledger lookup. -/
inductive IdemOutcome where
  | miss
  | corrupt (key : String)
  | hit (payload : JsonValue)

def IdemOutcome.isHit : IdemOutcome → Bool
  | .hit _ => true
  | _ => false

/-- The ledger lookup: read the entry; an empty stored string is falsy and
skipped; a value that fails `JSON.parse` or parses to a falsy or non-object
value is corrupt (to be deleted); otherwise it is a hit. -/
def idemLookup (env : Env) : Option String → IdemOutcome
  | none => .miss
  | some rid =>
    match env.dbGet (idemKey rid) with
    | none => .miss
    | some stored =>
      if stored = "" then .miss
      else
        match env.parseJson stored with
        | none => .corrupt (idemKey rid)
        | some v => if isReplayableJson v then .hit v else .corrupt (idemKey rid)

/-- The requested channel name as the source's truthiness test sees it
(`""` is falsy and means "no name requested"). -/
def chanRequested (b : ReqBody) : Option String :=
  match b.channelName with
  | some n => if n = "" then none else some n
  | none => none

/-- `selectHuggingFaceChannel`.  `ridx % length` stands for the always
in-range `Math.floor(Math.random() * channels.length)`. -/
def selectHuggingFaceChannel (hf : HfSettings) (cn : Option String) (ridx : Nat) :
    Option Channel :=
  if hf.channels.length = 0 then none
  else
    match cn with
    | some n => hf.channels.find? (fun c => c.name = some n)
    | none =>
        if hf.loadBalanceEnabled then hf.channels.get? (ridx % hf.channels.length)
        else hf.channels.head?

/-- The channel the run will use, if every channel gate passes (this is a
derived view used by theorem statements; the handler itself branches per
gate for the distinct error messages). -/
def resolvedChannel (env : Env) (b : ReqBody) : Option Channel :=
  match env.uploadConfig with
  | none => none
  | some hf =>
    if hf.channels.length = 0 then none
    else
      match selectHuggingFaceChannel hf (chanRequested b) env.randomIndex with
      | none => none
      | some ch => if ch.token = "" ∨ ch.repo = "" then none else some ch

def mkPrepCtx (env : Env) (folder : String) : PrepCtx :=
  ⟨folder, env.maxSingleFileSize, env.maxTotalSize, env.uploadIp,
   env.uploadAddress, env.now, env.imageDims⟩

def toCommitFile (pf : PreparedFile) : CommitFile :=
  ⟨pf.name, pf.bytes, pf.mimeType, pf.filePath, pf.precomputedSha256, pf.contentBase64⟩

def defaultCommitSummary (n : Nat) : String := s!"Batch upload {n} files"

/-- The commit summary: a non-blank `commitMessage` is trimmed, else the
default. -/
def commitSummaryOf (cm : Option String) (n : Nat) : String :=
  match cm with
  | some m => if jsTrim m = "" then defaultCommitSummary n else jsTrim m
  | none => defaultCommitSummary n

/-- Metadata completed with channel fields right after the commit. -/
def hfMeta (env : Env) (ch : Channel) (pf : PreparedFile) : Metadata :=
  { pf.metadata with
    channel := some "HuggingFace"
    channelName := some (jsStrOr ch.name "HuggingFace_env")
    hfRepo := some ch.repo
    hfFilePath := some pf.filePath
    hfToken := some ch.token
    hfIsPrivate := some ch.isPrivate
    hfFileUrl := some (env.getFileURL pf.filePath) }

/-- The URL handed to the moderation classifier: the public backend URL for
a public channel, the internally routed `/file/...` URL for a private one. -/
def moderationUrl (env : Env) (ch : Channel) (pf : PreparedFile) : String :=
  if ch.isPrivate then "https://" ++ env.hostname ++ "/file/" ++ encodeFileIdForUrl pf.fullId
  else env.getFileURL pf.filePath

/-- The metadata as finally scheduled via `endUpload` for one file (label
updated only when moderation is enabled and succeeds). -/
def finalMetaFor (env : Env) (ch : Channel) (pf : PreparedFile) : Metadata :=
  let meta := hfMeta env ch pf
  if env.moderateEnabled then
    match env.moderate (moderationUrl env ch pf) with
    | some label => { meta with label := label }
    | none => meta
  else meta

/-- The `db.put` writes issued for one file after the commit: the first
index-record write, plus a second one when moderation succeeds (a thrown
moderation error skips the second write). -/
def putsForFile (env : Env) (ch : Channel) (pf : PreparedFile) : List (String × PutVal) :=
  let meta := hfMeta env ch pf
  if env.moderateEnabled then
    match env.moderate (moderationUrl env ch pf) with
    | some label => [(pf.fullId, .meta meta), (pf.fullId, .meta { meta with label := label })]
    | none => [(pf.fullId, .meta meta)]
  else [(pf.fullId, .meta meta)]

/-- One entry of the success response's `files` array. -/
def respFileJson (pf : PreparedFile) : JsonValue :=
  .obj [("name", .str pf.name),
        ("src", .str ("/file/" ++ encodeFileIdForUrl pf.fullId)),
        ("fullId", .str pf.fullId)]

/-- The success payload. -/
def successPayload (rid? : Option String) (ch : Channel) (commitJson : JsonValue)
    (prepared : List PreparedFile) : JsonValue :=
  .obj [("success", .bool true),
        ("requestId", jsStrOrNull rid?),
        ("commitId", extractCommitId commitJson),
        ("channelName", jsStrOrNull ch.name),
        ("repo", .str ch.repo),
        ("files", .arr (prepared.map respFileJson))]

/-- From the commit call on: exactly one `uploadFilesInSingleCommit`
invocation happens here, whatever its outcome. -/
def afterPrepare (env : Env) (b : ReqBody) (rid? : Option String)
    (deletes : List String) (ch : Channel) (prepared : List PreparedFile) :
    HandlerResult :=
  match env.commitCall (prepared.map toCommitFile)
      (commitSummaryOf b.commitMessage prepared.length) with
  | .error e => ⟨toErrorResponse e, 1, deletes, [], []⟩
  | .ok commitJson =>
    let payload := successPayload rid? ch commitJson prepared
    ⟨jsonResponse payload 200, 1, deletes,
     prepared.flatMap (putsForFile env ch) ++
       (match rid? with
        | some rid => [(idemKey rid, PutVal.payload payload)]
        | none => []),
     prepared.map (fun pf => (pf.fullId, finalMetaFor env ch pf))⟩

def chanNotFound (msg : String) (deletes : List String) : HandlerResult :=
  ⟨jsonResponse (mkErrorBody "CHANNEL_NOT_FOUND" msg) 400, 0, deletes, [], []⟩

/-- The part of the run after the idempotency gate: channel resolution,
preparation, commit, post-commit recording. -/
def processBatch (env : Env) (b : ReqBody) (fs : List FileInput) (folder : String)
    (rid? : Option String) (deletes : List String) : HandlerResult :=
  match env.uploadConfig with
  | none => chanNotFound "No HuggingFace channel configured" deletes
  | some hf =>
    if hf.channels.length = 0 then chanNotFound "No HuggingFace channel configured" deletes
    else
      match selectHuggingFaceChannel hf (chanRequested b) env.randomIndex with
      | none =>
          chanNotFound
            (match chanRequested b with
             | some n => "HuggingFace channel not found: " ++ n
             | none => "No available HuggingFace channel") deletes
      | some ch =>
        if ch.token = "" ∨ ch.repo = "" then
          chanNotFound "HuggingFace channel not properly configured" deletes
        else
          match prepareFiles (mkPrepCtx env folder) 0 0 [] fs with
          | .error e => ⟨toErrorResponse e, 0, deletes, [], []⟩
          | .ok prepared => afterPrepare env b rid? deletes ch prepared

def tooManyFilesMsg (m : Nat) : String := s!"Too many files, max allowed: {m}"

/-- `onRequestPost`, as a pure function of the environment.  Every branch
records the effects that have happened by the time the response is built;
the single top-level `try/catch` of the source corresponds to the
`toErrorResponse` conversions on thrown `ApiError`s. -/
def onRequestPost (env : Env) : HandlerResult :=
  if env.authOk = false then
    ⟨jsonResponse (mkErrorBody "AUTH_ERROR" "Unauthorized") 401, 0, [], [], []⟩
  else
    match env.body with
    | none =>
        ⟨jsonResponse (mkErrorBody "INVALID_REQUEST" "Request body must be valid JSON") 400,
         0, [], [], []⟩
    | some b =>
      match b.files with
      | none =>
          ⟨jsonResponse (mkErrorBody "INVALID_REQUEST" "files must be a non-empty array") 400,
           0, [], [], []⟩
      | some fs =>
        if fs.length = 0 then
          ⟨jsonResponse (mkErrorBody "INVALID_REQUEST" "files must be a non-empty array") 400,
           0, [], [], []⟩
        else if fs.length > env.maxFiles then
          ⟨jsonResponse (mkErrorBody "INVALID_REQUEST" (tooManyFilesMsg env.maxFiles)) 400,
           0, [], [], []⟩
        else
          match checkRequestId b.requestId with
          | .error resp => ⟨resp, 0, [], [], []⟩
          | .ok rid? =>
            match normalizeUploadFolder b.uploadFolder with
            | .error e => ⟨toErrorResponse e, 0, [], [], []⟩
            | .ok folder =>
              match idemLookup env rid? with
              | .hit payload => ⟨jsonResponse (setIdempotentFlag payload) 200, 0, [], [], []⟩
              | .corrupt key => processBatch env b fs folder rid? [key]
              | .miss => processBatch env b fs folder rid? []

end ImgBed

namespace MimeTypeUtil

/-! ## `functions/utils/mimeType.js` -/

/-- A character of the `MIME_PATTERN` name classes `[a-z0-9!#$&^_.+-]`
under the `i` flag. -/
def mimeNameChar (c : Char) : Bool :=
  ('A' ≤ c && c ≤ 'Z') || ('a' ≤ c && c ≤ 'z') || ('0' ≤ c && c ≤ '9') ||
  c = '!' || c = '#' || c = '$' || c = '&' || c = '^' || c = '_' ||
  c = '.' || c = '+' || c = '-'

/-- Whether `\s*.+$` matches the remainder after the `;` of
`MIME_PATTERN`'s parameter group: either some whitespace prefix leaves a
non-empty tail free of line terminators, or (remainder entirely
whitespace) the last character can be taken by `.` itself. -/
def dotPlusTail (rest : List Char) : Bool :=
  let t := rest.dropWhile ImgBed.jsWhitespace
  if t.isEmpty then
    match rest.reverse with
    | [] => false
    | c :: _ => !ImgBed.lineTerminatorChar c
  else t.all (fun c => !ImgBed.lineTerminatorChar c)

/-- Whether `\s*;\s*.+$` matches the remainder after the subtype. -/
def paramTail (r : List Char) : Bool :=
  match r.dropWhile ImgBed.jsWhitespace with
  | ';' :: rest => dotPlusTail rest
  | _ => false

/-- The regex `MIME_PATTERN = /^[a-z0-9!#$&^_.+-]+\/[a-z0-9!#$&^_.+-]+(?:\s*;\s*.+)?$/i`
as a decidable matcher (the character classes exclude `/`, `;` and
whitespace, so the greedy factorization below is exact). -/
def matchesMimePattern (l : List Char) : Bool :=
  !(l.takeWhile mimeNameChar).isEmpty &&
  (match l.dropWhile mimeNameChar with
   | '/' :: r2 =>
     !(r2.takeWhile mimeNameChar).isEmpty &&
     ((r2.dropWhile mimeNameChar).isEmpty || paramTail (r2.dropWhile mimeNameChar))
   | _ => false)

/-- `normalizeMimeType` of mimeType.js: `none` is the JS `null` (non-string
input, blank, or pattern failure). -/
def normalizeMimeType (m : Option String) : Option String :=
  match m with
  | none => none
  | some s =>
    let t := ImgBed.jsTrim s
    if t = "" then none
    else if matchesMimePattern t.data then some t else none

/-- `toBaseMimeType`: first `;`-separated part, trimmed and lowercased
(ASCII lowercasing; the mime names compared against are ASCII). -/
def toBaseMimeType (m : Option String) : Option String :=
  match m with
  | none => none
  | some s =>
    let t := ImgBed.jsTrim s
    if t = "" then none
    else
      let lowered : String :=
        ⟨(ImgBed.jsTrimList (t.data.takeWhile (fun c => c ≠ ';'))).map Char.toLower⟩
      if lowered = "" then none else some lowered

def isOctetStreamMimeType (m : Option String) : Bool :=
  toBaseMimeType m = some "application/octet-stream"

/-- `EXTENSION_MIME_MAP`. -/
def extMime (ext : String) : Option String :=
  match ext with
  | "avif" => some "image/avif"
  | "bmp" => some "image/bmp"
  | "css" => some "text/css; charset=utf-8"
  | "csv" => some "text/csv; charset=utf-8"
  | "gif" => some "image/gif"
  | "heic" => some "image/heic"
  | "heif" => some "image/heif"
  | "htm" => some "text/html; charset=utf-8"
  | "html" => some "text/html; charset=utf-8"
  | "ico" => some "image/x-icon"
  | "jpeg" => some "image/jpeg"
  | "jpg" => some "image/jpeg"
  | "js" => some "application/javascript; charset=utf-8"
  | "json" => some "application/json; charset=utf-8"
  | "md" => some "text/markdown; charset=utf-8"
  | "mp3" => some "audio/mpeg"
  | "mp4" => some "video/mp4"
  | "mpeg" => some "video/mpeg"
  | "mpg" => some "video/mpeg"
  | "m4a" => some "audio/mp4"
  | "mov" => some "video/quicktime"
  | "pdf" => some "application/pdf"
  | "png" => some "image/png"
  | "svg" => some "image/svg+xml"
  | "tif" => some "image/tiff"
  | "tiff" => some "image/tiff"
  | "txt" => some "text/plain; charset=utf-8"
  | "wav" => some "audio/wav"
  | "webm" => some "video/webm"
  | "webp" => some "image/webp"
  | "xml" => some "application/xml; charset=utf-8"
  | "zip" => some "application/zip"
  | _ => none

/-- `inferMimeTypeFromFileName`: strip query/fragment, take the last
`/`-separated segment, extract the extension after the last dot (rejecting
hidden-file and trailing-dot shapes), look it up. -/
def inferMimeTypeFromFileName (f : Option String) : Option String :=
  match f with
  | none => none
  | some s =>
    if ImgBed.jsTrim s = "" then none
    else
      let n2 := (s.data.takeWhile (fun c => c ≠ '?')).takeWhile (fun c => c ≠ '#')
      let base := (n2.reverse.takeWhile (fun c => c ≠ '/')).reverse
      if base.isEmpty then none
      else
        let afterDotRev := base.reverse.takeWhile (fun c => c ≠ '.')
        if afterDotRev.length = base.length then none
        else if base.length - afterDotRev.length - 1 = 0 then none
        else if afterDotRev.isEmpty then none
        else extMime ⟨afterDotRev.reverse.map Char.toLower⟩

/-- Index of the first `,`, if any (JS `indexOf(',')`, `-1` folded into
`none`). -/
def firstCommaIndex : List Char → Option Nat
  | [] => none
  | c :: rest => if c = ',' then some 0 else (firstCommaIndex rest).map (fun n => n + 1)

/-- `extractMimeTypeFromDataUrl`. -/
def extractMimeTypeFromDataUrl (v : Option String) : Option String :=
  match v with
  | none => none
  | some s =>
    let t := ImgBed.jsTrim s
    if !ImgBed.strStartsWith t "data:" then none
    else
      match firstCommaIndex t.data with
      | none => none
      | some ci =>
        if ci ≤ 5 then none
        else
          normalizeMimeType (some (ImgBed.jsTrim
            ⟨((t.data.drop 5).take (ci - 5)).takeWhile (fun c => c ≠ ';')⟩))

/-- The fallback chain of `resolveMimeType` after the non-octet-stream
declared type has been ruled out (`ni` is the validated declared type). -/
def resolveFallback (fileName dataUrlValue : Option String) (ni : Option String)
    (defaultMimeType : String) : String :=
  match extractMimeTypeFromDataUrl dataUrlValue with
  | some u => u
  | none =>
    match inferMimeTypeFromFileName fileName with
    | some v => v
    | none =>
      match ni with
      | some t => t
      | none => defaultMimeType

/-- `resolveMimeType(mimeType, fileName, {dataUrlValue, defaultMimeType})`.
The `defaultMimeType` option defaults to `"application/octet-stream"` at
the JS call sites; it is an explicit argument here. -/
def resolveMimeType (mimeType fileName dataUrlValue : Option String)
    (defaultMimeType : String) : String :=
  match normalizeMimeType mimeType with
  | some t =>
    if isOctetStreamMimeType (some t) then
      resolveFallback fileName dataUrlValue (some t) defaultMimeType
    else t
  | none => resolveFallback fileName dataUrlValue none defaultMimeType

end MimeTypeUtil

namespace ImgBed

/-! ## Theorems: base64 size estimation (C7) -/

/-- Bytes contributed by a final partial chunk of `n % 4` characters. -/
def b64Tail (n : Nat) : Nat :=
  if n % 4 = 2 then 1 else if n % 4 = 3 then 2 else 0

theorem decodeChunks_length (l : List Char) :
    (decodeChunks l).length = l.length / 4 * 3 + b64Tail l.length := by
  match l with
  | [] => simp [decodeChunks, b64Tail]
  | [c] => simp [decodeChunks, b64Tail]
  | [c1, c2] => simp [decodeChunks, b64Tail]
  | [c1, c2, c3] => simp [decodeChunks, b64Tail]
  | c1 :: c2 :: c3 :: c4 :: rest =>
    have ih := decodeChunks_length rest
    simp only [decodeChunks, List.length_cons, ih]
    have h4 : rest.length + 1 + 1 + 1 + 1 = rest.length + 4 := by omega
    rw [h4]
    have ht : b64Tail (rest.length + 4) = b64Tail rest.length := by
      unfold b64Tail
      rw [show (rest.length + 4) % 4 = rest.length % 4 by omega]
    rw [ht]
    generalize b64Tail rest.length = T
    omega

theorem padCount_le_two (l : List Char) : padCount l ≤ 2 := by
  unfold padCount
  split <;> omega

theorem padCount_le_length (l : List Char) : padCount l ≤ l.length := by
  have hrev : l.reverse.length = l.length := List.length_reverse l
  unfold padCount
  split
  · next t heq =>
      have := congrArg List.length heq
      simp at this
      omega
  · next t heq =>
      have := congrArg List.length heq
      simp at this
      omega
  · omega

theorem padCount_eq_zero_of_all_b64 (l : List Char) (h : l.all isB64Char = true) :
    padCount l = 0 := by
  unfold padCount
  split
  · next t heq =>
      have hm : ('=' : Char) ∈ l := by
        rw [← List.mem_reverse, heq]; exact List.mem_cons_self _ _
      have := List.all_eq_true.mp h _ hm
      simp [isB64Char] at this
  · next t heq =>
      have hm : ('=' : Char) ∈ l := by
        rw [← List.mem_reverse, heq]; exact List.mem_cons_self _ _
      have := List.all_eq_true.mp h _ hm
      simp [isB64Char] at this
  · rfl

theorem estimate_exact (s : String) (bytes : List Nat)
    (hws : ∀ c ∈ s.data, asciiWhitespace c = false)
    (hdec : atobStr s.data = some bytes) :
    estimateBase64Size s = bytes.length := by
  have hfil : s.data.filter (fun c => !asciiWhitespace c) = s.data := by
    apply List.filter_eq_self.mpr
    intro a ha
    simp [hws a ha]
  unfold atobStr at hdec
  rw [hfil] at hdec
  by_cases h0 : s.data.length % 4 = 0
  · have hstrip : stripB64Padding s.data = s.data.take (s.data.length - padCount s.data) := by
      unfold stripB64Padding; rw [if_pos h0]
    rw [hstrip] at hdec
    dsimp only [] at hdec
    have hple := padCount_le_length s.data
    have hp2 := padCount_le_two s.data
    have hlen : (s.data.take (s.data.length - padCount s.data)).length
        = s.data.length - padCount s.data := by
      simp [List.length_take]
    split at hdec
    · exact absurd hdec (by simp)
    · split at hdec
      · next hall =>
          have hb := Option.some.inj hdec
          subst hb
          rw [decodeChunks_length, hlen]
          by_cases hz : s.data.length = 0
          · have hpz : padCount s.data = 0 := by omega
            unfold estimateBase64Size
            rw [if_pos hz, hz, hpz]
            simp [b64Tail]
          · unfold estimateBase64Size
            rw [if_neg hz]
            unfold b64Tail
            split
            · omega
            · split <;> omega
      · exact absurd hdec (by simp)
  · have hstrip : stripB64Padding s.data = s.data := by
      unfold stripB64Padding; rw [if_neg h0]
    rw [hstrip] at hdec
    dsimp only [] at hdec
    split at hdec
    · exact absurd hdec (by simp)
    · next h1 =>
        split at hdec
        · next hall =>
            have hb := Option.some.inj hdec
            subst hb
            have hpz := padCount_eq_zero_of_all_b64 s.data hall
            have hz : s.data.length ≠ 0 := by
              intro hc; exact h0 (by omega)
            rw [decodeChunks_length]
            unfold estimateBase64Size
            rw [if_neg hz, hpz]
            unfold b64Tail
            split
            · omega
            · split <;> omega
        · exact absurd hdec (by simp)

/-- C7: for a whitespace-free payload that `atob` accepts, the
padding-aware pre-decode size estimate equals the exact decoded byte
count; and a payload `atob` rejects makes `decodeBase64ToUint8Array`
raise the 400 `INVALID_REQUEST` "Invalid base64 content" error instead of
returning bytes. -/
theorem c7_estimate_matches_decoded_size :
    (∀ (s : String) (bytes : List Nat),
       (∀ c ∈ s.data, asciiWhitespace c = false) →
       atobStr s.data = some bytes →
       estimateBase64Size s = bytes.length)
    ∧ (∀ s : String, atobStr s.data = none →
         decodeBase64ToUint8Array s = .error invalidBase64Error) := by
  constructor
  · exact estimate_exact
  · intro s h
    unfold decodeBase64ToUint8Array
    rw [h]

/-- Witness for C7 at concrete inputs: `"QQ=="` decodes to one byte and is
estimated at one byte; `"!"` fails to decode and yields the error. -/
theorem c7_estimate_matches_decoded_size_witness :
    estimateBase64Size "QQ==" = 1 ∧
    decodeBase64ToUint8Array "!" = .error invalidBase64Error :=
  ⟨c7_estimate_matches_decoded_size.1 "QQ==" [65] (by decide) rfl,
   c7_estimate_matches_decoded_size.2 "!" rfl⟩

/-! ## Theorems: folder normalization (C6) -/

/-- No two consecutive slashes. -/
def noDub : List Char → Bool
  | a :: b :: rest => if a = '/' ∧ b = '/' then false else noDub (b :: rest)
  | _ => true

theorem noDub_cons (a : Char) (l : List Char) (h1 : noDub l = true)
    (h2 : ∀ b, l.head? = some b → ¬(a = '/' ∧ b = '/')) : noDub (a :: l) = true := by
  cases l with
  | nil => rfl
  | cons c r =>
      unfold noDub
      rw [if_neg (h2 c rfl)]
      exact h1

theorem collapse_head (l : List Char) :
    (collapseSlashes l).head? = l.head? := by
  match l with
  | [] => rfl
  | [c] => rfl
  | a :: b :: rest =>
    unfold collapseSlashes
    split
    · next h =>
        rw [collapse_head (b :: rest)]
        simp [h.1, h.2]
    · simp

theorem collapse_ne_nil (b : Char) (rest : List Char) :
    collapseSlashes (b :: rest) ≠ [] := by
  match rest with
  | [] => simp [collapseSlashes]
  | c :: r =>
    unfold collapseSlashes
    split
    · exact collapse_ne_nil c r
    · simp

theorem collapse_getLast (l : List Char) :
    (collapseSlashes l).getLast? = l.getLast? := by
  match l with
  | [] => rfl
  | [c] => rfl
  | a :: b :: rest =>
    unfold collapseSlashes
    split
    · rw [collapse_getLast (b :: rest), List.getLast?_cons_cons]
    · cases hm : collapseSlashes (b :: rest) with
      | nil => exact absurd hm (collapse_ne_nil b rest)
      | cons c m =>
          have hrec := collapse_getLast (b :: rest)
          rw [hm] at hrec
          rw [List.getLast?_cons_cons, hrec, List.getLast?_cons_cons]

theorem collapse_noDub (l : List Char) : noDub (collapseSlashes l) = true := by
  match l with
  | [] => rfl
  | [c] => rfl
  | a :: b :: rest =>
    unfold collapseSlashes
    split
    · exact collapse_noDub (b :: rest)
    · next h =>
        apply noDub_cons
        · exact collapse_noDub (b :: rest)
        · intro x hx
          have hb : x = b := by
            have hh := collapse_head (b :: rest)
            rw [hx] at hh
            exact (Option.some.inj hh.symm).symm
          subst hb
          exact h

theorem noDub_collapse_eq (l : List Char) (h : noDub l = true) :
    collapseSlashes l = l := by
  match l with
  | [] => rfl
  | [c] => rfl
  | a :: b :: rest =>
    unfold noDub at h
    split at h
    · exact absurd h (by simp)
    · next hc =>
        unfold collapseSlashes
        rw [if_neg hc, noDub_collapse_eq (b :: rest) h]

theorem dropWhile_eq_self_of_head (p : Char → Bool) (l : List Char)
    (h : ∀ a, l.head? = some a → p a = false) : l.dropWhile p = l := by
  cases l with
  | nil => rfl
  | cons c r =>
      have := h c rfl
      simp [List.dropWhile_cons, this]

theorem head_false_of_dropWhile (p : Char → Bool) (l : List Char) (a : Char)
    (h : (l.dropWhile p).head? = some a) : p a = false := by
  induction l with
  | nil => simp [List.dropWhile] at h
  | cons c r ih =>
      rw [List.dropWhile_cons] at h
      by_cases hc : p c = true
      · rw [if_pos hc] at h
        exact ih h
      · rw [if_neg hc] at h
        simp at h
        subst h
        simpa using hc

theorem prefix_head (l₁ l₂ : List Char) (h : l₁ <+: l₂) (a : Char)
    (ha : l₁.head? = some a) : l₂.head? = some a := by
  obtain ⟨tl, rfl⟩ := h
  cases l₁ with
  | nil => exact absurd ha (by simp)
  | cons c r =>
      simp at ha ⊢
      exact ha

theorem dropTrailing_prefix (p : Char → Bool) (l : List Char) :
    dropTrailing p l <+: l := by
  unfold dropTrailing
  have hs : l.reverse.dropWhile p <:+ l.reverse := List.dropWhile_suffix p
  have := List.reverse_prefix.mpr hs
  rwa [List.reverse_reverse] at this

theorem getLast_false_of_dropTrailing (p : Char → Bool) (l : List Char) (a : Char)
    (h : (dropTrailing p l).getLast? = some a) : p a = false := by
  unfold dropTrailing at h
  rw [List.getLast?_reverse] at h
  exact head_false_of_dropWhile p l.reverse a h

theorem dropTrailing_eq_self (p : Char → Bool) (l : List Char)
    (h : ∀ a, l.getLast? = some a → p a = false) : dropTrailing p l = l := by
  unfold dropTrailing
  rw [dropWhile_eq_self_of_head p l.reverse, List.reverse_reverse]
  intro a ha
  rw [List.head?_reverse] at ha
  exact h a ha

/-- Every property of a `normCore` output needed to re-run it: the output
characters, which segments check passed, and non-emptiness. -/
theorem normCore_ok_inv (s t : String) (h : normCore s = .ok t) (hne : t ≠ "") :
    t.data = collapseSlashes (dropTrailingSlashes (dropLeadingSlashes (jsTrimList s.data)))
    ∧ (splitSlash t.data).find? segBad = none ∧ t.data ≠ [] := by
  unfold normCore at h
  dsimp only [] at h
  split at h
  · have := Except.ok.inj h
    exact absurd this.symm hne
  · next hcond =>
      split at h
      · split at h <;> exact absurd h (by simp)
      · next hfind =>
          have ht := (Except.ok.inj h).symm
          subst ht
          exact ⟨rfl, hfind, hcond⟩

/-- Re-running `normCore` on a string already in normal form (trim-stable,
no edge slashes, no double slash, all segments valid) returns it
unchanged. -/
theorem normCore_of_normal (u : List Char)
    (h1 : jsTrimList u = u)
    (h2 : ∀ a, u.head? = some a → a ≠ '/')
    (h3 : ∀ a, u.getLast? = some a → a ≠ '/')
    (h4 : noDub u = true)
    (h5 : u ≠ [])
    (h6 : (splitSlash u).find? segBad = none) :
    normCore ⟨u⟩ = .ok ⟨u⟩ := by
  unfold normCore
  dsimp only []
  have hdl : dropLeadingSlashes u = u := by
    unfold dropLeadingSlashes
    apply dropWhile_eq_self_of_head
    intro a ha
    simpa using h2 a ha
  have hdt : dropTrailingSlashes u = u := by
    unfold dropTrailingSlashes
    apply dropTrailing_eq_self
    intro a ha
    simpa using h3 a ha
  rw [h1, hdl, hdt, noDub_collapse_eq u h4, if_neg h5, h6]

/-- C6 (amended): folder normalization, re-applied to an output that is
stable under `trim`, returns that output unchanged.  (The unrestricted
claim fails: stripping slashes can expose leading/trailing whitespace that
only the second run trims away -- see the counterexample.) -/
theorem c6_normalizeUploadFolder_idempotent_on_trimmed (s t : String)
    (hnorm : normalizeUploadFolder (some s) = .ok t)
    (htrim : jsTrim t = t) :
    normalizeUploadFolder (some t) = .ok t := by
  simp only [normalizeUploadFolder] at hnorm ⊢
  by_cases hne : t = ""
  · subst hne
    rfl
  · obtain ⟨hdata, hfind, hnil⟩ := normCore_ok_inv s t hnorm hne
    have htrim' : jsTrimList t.data = t.data := by
      have := congrArg String.data htrim
      simpa [jsTrim] using this
    have hnd : noDub t.data = true := by
      rw [hdata]; exact collapse_noDub _
    have hhead : ∀ a, t.data.head? = some a → a ≠ '/' := by
      intro a ha
      rw [hdata, collapse_head] at ha
      have h1 : (dropLeadingSlashes (jsTrimList s.data)).head? = some a := by
        apply prefix_head _ _ _ a ha
        unfold dropTrailingSlashes
        exact dropTrailing_prefix _ _
      unfold dropLeadingSlashes at h1
      have := head_false_of_dropWhile _ _ a h1
      simpa using this
    have hlast : ∀ a, t.data.getLast? = some a → a ≠ '/' := by
      intro a ha
      rw [hdata, collapse_getLast] at ha
      unfold dropTrailingSlashes at ha
      have := getLast_false_of_dropTrailing _ _ a ha
      simpa using this
    have hmain := normCore_of_normal t.data htrim' hhead hlast hnd hnil hfind
    simpa using hmain

/-- C6 counterexample: `normalizeUploadFolder` is not idempotent as
claimed.  On `"/ a"` the leading slash is stripped after trimming, which
exposes a leading space: the output is `" a"`, and normalizing `" a"`
yields `"a"`, a different string. -/
theorem c6_normalizeUploadFolder_counterexample :
    normalizeUploadFolder (some "/ a") = .ok " a" ∧
    normalizeUploadFolder (some " a") = .ok "a" ∧
    (" a" : String) ≠ "a" :=
  ⟨rfl, rfl, by decide⟩

/-- Witness for the amended C6 at a concrete input: `"a//b"` normalizes to
`"a/b"`, which is trim-stable, and re-normalizing returns it unchanged. -/
theorem c6_normalizeUploadFolder_idempotent_on_trimmed_witness :
    normalizeUploadFolder (some "a/b") = .ok "a/b" :=
  c6_normalizeUploadFolder_idempotent_on_trimmed "a//b" "a/b" rfl rfl

/-! ## Lemmas about the prepare loop (used by C4, C5, C9) -/

theorem normalizeFileName_error (n : Option String) (e : ApiError)
    (h : normalizeFileName n = .error e) :
    e.code = some "INVALID_REQUEST" ∧ e.status = some 400 := by
  unfold normalizeFileName at h
  dsimp only [] at h
  repeat' split at h
  all_goals first
    | (cases h; exact ⟨rfl, rfl⟩)
    | (exact absurd h (by simp))

theorem normalizeContentBase64_error (c : Option String) (e : ApiError)
    (h : normalizeContentBase64 c = .error e) :
    e.code = some "INVALID_REQUEST" ∧ e.status = some 400 := by
  unfold normalizeContentBase64 at h
  dsimp only [] at h
  repeat' split at h
  all_goals first
    | (cases h; exact ⟨rfl, rfl⟩)
    | (exact absurd h (by simp))

theorem decodeBase64_error (b64 : String) (e : ApiError)
    (h : decodeBase64ToUint8Array b64 = .error e) : e = invalidBase64Error := by
  unfold decodeBase64ToUint8Array at h
  split at h
  · cases h; rfl
  · exact absurd h (by simp)

/-- Every rejection of the prepare loop is a 400 `INVALID_REQUEST`. -/
theorem prepareFiles_error_invalid (ctx : PrepCtx) :
    ∀ (fs : List FileInput) (i total : Nat) (seen : List String) (e : ApiError),
      prepareFiles ctx i total seen fs = .error e →
      e.code = some "INVALID_REQUEST" ∧ e.status = some 400 := by
  intro fs
  induction fs with
  | nil =>
      intro i total seen e h
      exact absurd h (by simp [prepareFiles])
  | cons f rest ih =>
      intro i total seen e h
      unfold prepareFiles at h
      dsimp only [] at h
      split at h
      · rename_i e₁ heq
        rw [← Except.error.inj h]
        exact normalizeFileName_error f.name e₁ heq
      · rename_i name hname
        split at h
        · rename_i e₁ heq
          rw [← Except.error.inj h]
          exact normalizeContentBase64_error f.contentBase64 e₁ heq
        · rename_i b64 hb64
          split at h
          · cases h; exact ⟨rfl, rfl⟩
          · split at h
            · cases h; exact ⟨rfl, rfl⟩
            · split at h
              · cases h; exact ⟨rfl, rfl⟩
              · split at h
                · cases h; exact ⟨rfl, rfl⟩
                · split at h
                  · cases h; exact ⟨rfl, rfl⟩
                  · split at h
                    · rename_i e₁ heq
                      rw [← Except.error.inj h, decodeBase64_error b64 e₁ heq]
                      exact ⟨rfl, rfl⟩
                    · rename_i bytes hbytes
                      split at h
                      · rename_i e₁ heq
                        rw [← Except.error.inj h]
                        exact ih _ _ _ e₁ heq
                      · exact absurd h (by simp)

/-- What a successful prepare run guarantees: one output per input in
order, each normalized with an in-budget estimated size and the
`folder/name` target path, all target paths distinct and fresh. -/
theorem prepareFiles_ok_spec (ctx : PrepCtx) :
    ∀ (fs : List FileInput) (i total : Nat) (seen : List String)
      (res : List PreparedFile),
      prepareFiles ctx i total seen fs = .ok res →
      res.length = fs.length ∧
      (∀ (k : Nat) (g : FileInput), fs[k]? = some g →
         ∃ pf : PreparedFile, res[k]? = some pf ∧
         normalizeFileName g.name = .ok pf.name ∧
         normalizeContentBase64 g.contentBase64 = .ok pf.contentBase64 ∧
         0 < estimateBase64Size pf.contentBase64 ∧
         estimateBase64Size pf.contentBase64 ≤ ctx.maxSingleFileSize ∧
         pf.fullId = mkFullId ctx.folder pf.name) ∧
      (res.map (fun pf => pf.fullId)).Nodup ∧
      (∀ x ∈ res.map (fun pf => pf.fullId), x ∉ seen) := by
  intro fs
  induction fs with
  | nil =>
      intro i total seen res h
      unfold prepareFiles at h
      cases h
      refine ⟨rfl, ?_, by simp, by simp⟩
      intro k g hk
      simp at hk
  | cons f rest ih =>
      intro i total seen res h
      unfold prepareFiles at h
      dsimp only [] at h
      split at h
      · exact absurd h (by simp)
      · rename_i name hname
        split at h
        · exact absurd h (by simp)
        · rename_i b64 hb64
          split at h
          · exact absurd h (by simp)
          · rename_i hest0
            split at h
            · exact absurd h (by simp)
            · rename_i hestBig
              split at h
              · exact absurd h (by simp)
              · rename_i htot
                split at h
                · exact absurd h (by simp)
                · rename_i hresv
                  split at h
                  · exact absurd h (by simp)
                  · rename_i hmem
                    split at h
                    · exact absurd h (by simp)
                    · rename_i bytes hdec
                      split at h
                      · exact absurd h (by simp)
                      · rename_i more hrec
                        have hres' := Except.ok.inj h
                        subst hres'
                        obtain ⟨ihlen, ihidx, ihnd, ihseen⟩ := ih _ _ _ _ hrec
                        refine ⟨by simpa using ihlen, ?_, ?_, ?_⟩
                        · intro k g hk
                          match k with
                          | 0 =>
                            simp at hk
                            subst hk
                            refine ⟨_, List.getElem?_cons_zero, hname, hb64, ?_, ?_, rfl⟩
                            · show 0 < estimateBase64Size b64
                              omega
                            · show estimateBase64Size b64 ≤ ctx.maxSingleFileSize
                              omega
                          | k + 1 =>
                            simp only [List.getElem?_cons_succ] at hk
                            obtain ⟨pf', h1, hps⟩ := ihidx k g hk
                            exact ⟨pf', by simpa using h1, hps⟩
                        · simp only [List.map_cons]
                          rw [List.nodup_cons]
                          refine ⟨?_, ihnd⟩
                          intro hx
                          exact (ihseen _ hx) (List.mem_cons_self _ _)
                        · intro x hx
                          simp only [List.map_cons, List.mem_cons] at hx
                          cases hx with
                          | inl hx =>
                              rw [hx]
                              exact hmem
                          | inr hx =>
                              intro hxs
                              exact (ihseen x hx) (List.mem_cons_of_mem _ hxs)

/-- The target path an entry resolves to, when its name normalizes. -/
def entryFullId (folder : String) (f : FileInput) : Option String :=
  match normalizeFileName f.name with
  | .ok n => some (mkFullId folder n)
  | .error _ => none

/-- The estimated decoded size of an entry (0 when its content field does
not normalize). -/
def estOfEntry (f : FileInput) : Nat :=
  match normalizeContentBase64 f.contentBase64 with
  | .ok b64 => estimateBase64Size b64
  | .error _ => 0

/-- An entry that reaches the per-file size check (name and content
normalize) and fails it: estimated size zero or above the single-file
limit. -/
def entrySizeBad (ctx : PrepCtx) (f : FileInput) : Prop :=
  (∃ n, normalizeFileName f.name = .ok n) ∧
  (∃ b64, normalizeContentBase64 f.contentBase64 = .ok b64 ∧
     (estimateBase64Size b64 = 0 ∨ estimateBase64Size b64 > ctx.maxSingleFileSize))

/-- An entry that passes every per-entry check of the loop. -/
def entryOkFor (ctx : PrepCtx) (f : FileInput) : Prop :=
  ∃ n b64 bytes, normalizeFileName f.name = .ok n ∧
    normalizeContentBase64 f.contentBase64 = .ok b64 ∧
    0 < estimateBase64Size b64 ∧
    estimateBase64Size b64 ≤ ctx.maxSingleFileSize ∧
    strStartsWith (mkFullId ctx.folder n) "manage@" = false ∧
    decodeBase64ToUint8Array b64 = .ok bytes

/-- Sum of the estimated sizes the loop accumulated for a prepared list. -/
def estSum (res : List PreparedFile) : Nat :=
  (res.map (fun pf => estimateBase64Size pf.contentBase64)).sum

/-- Running the loop over `gs ++ ys` when `gs` alone succeeds: the run first
produces `gs`'s results, then continues on `ys` with the accumulated
running total and taken-path set. -/
theorem prepareFiles_append (ctx : PrepCtx) :
    ∀ (gs : List FileInput) (i total : Nat) (seen : List String)
      (res : List PreparedFile) (ys : List FileInput),
      prepareFiles ctx i total seen gs = .ok res →
      prepareFiles ctx i total seen (gs ++ ys) =
        (prepareFiles ctx (i + gs.length) (total + estSum res)
          ((res.map (fun pf => pf.fullId)).reverse ++ seen) ys).map
          (fun more => res ++ more) := by
  intro gs
  induction gs with
  | nil =>
      intro i total seen res ys h
      unfold prepareFiles at h
      cases h
      simp only [List.nil_append, List.length_nil, Nat.add_zero, estSum, List.map_nil,
        List.sum_nil, List.reverse_nil]
      cases hy : prepareFiles ctx i total seen ys <;> simp [Except.map]
  | cons f rest ih =>
      intro i total seen res ys h
      unfold prepareFiles at h
      dsimp only [] at h
      split at h
      · exact absurd h (by simp)
      · rename_i name hname
        split at h
        · exact absurd h (by simp)
        · rename_i b64 hb64
          split at h
          · exact absurd h (by simp)
          · rename_i hest0
            split at h
            · exact absurd h (by simp)
            · rename_i hestBig
              split at h
              · exact absurd h (by simp)
              · rename_i htot
                split at h
                · exact absurd h (by simp)
                · rename_i hresv
                  split at h
                  · exact absurd h (by simp)
                  · rename_i hmem
                    split at h
                    · exact absurd h (by simp)
                    · rename_i bytes hdec
                      split at h
                      · exact absurd h (by simp)
                      · rename_i more hrec
                        cases Except.ok.inj h
                        show prepareFiles ctx i total seen (f :: (rest ++ ys)) = _
                        conv_lhs => unfold prepareFiles
                        dsimp only []
                        simp only [hname, hb64, hdec]
                        rw [if_neg hest0, if_neg hestBig, if_neg htot, if_neg hresv,
                          if_neg hmem]
                        rw [ih (i + 1) (total + estimateBase64Size b64)
                          (mkFullId ctx.folder name :: seen) more ys hrec]
                        simp only [estSum, List.map_cons, List.sum_cons,
                          List.reverse_cons, List.append_assoc, List.length_cons,
                          List.singleton_append]
                        have e1 : i + (rest.length + 1) = i + 1 + rest.length := by omega
                        rw [e1, ← Nat.add_assoc]
                        cases hy : prepareFiles ctx (i + 1 + rest.length)
                            (total + estimateBase64Size b64 +
                              (more.map (fun pf => estimateBase64Size pf.contentBase64)).sum)
                            ((more.map (fun pf => pf.fullId)).reverse ++
                              (mkFullId ctx.folder name :: seen)) ys <;>
                          simp [Except.map]

/-- A batch of individually valid entries with distinct target paths and a
total estimate within budget succeeds. -/
theorem prepareFiles_ok_of_good (ctx : PrepCtx) :
    ∀ (fs : List FileInput) (i total : Nat) (seen : List String),
      (∀ f ∈ fs, entryOkFor ctx f) →
      total + (fs.map estOfEntry).sum ≤ ctx.maxTotalSize →
      (fs.filterMap (entryFullId ctx.folder)).Nodup →
      (∀ x ∈ fs.filterMap (entryFullId ctx.folder), x ∉ seen) →
      ∃ res, prepareFiles ctx i total seen fs = .ok res := by
  intro fs
  induction fs with
  | nil =>
      intro i total seen _ _ _ _
      exact ⟨[], rfl⟩
  | cons f rest ih =>
      intro i total seen hgood htot hnd hseen
      obtain ⟨n, b64, bytes, hname, hb64, hpos, hsingle, hresv, hdec⟩ :=
        hgood f (List.mem_cons_self _ _)
      have hestOf : estOfEntry f = estimateBase64Size b64 := by
        unfold estOfEntry; rw [hb64]
      have hfid : entryFullId ctx.folder f = some (mkFullId ctx.folder n) := by
        unfold entryFullId; rw [hname]
      have hfm : (f :: rest).filterMap (entryFullId ctx.folder)
          = mkFullId ctx.folder n :: rest.filterMap (entryFullId ctx.folder) := by
        simp [List.filterMap_cons, hfid]
      rw [hfm] at hnd hseen
      have hmem : mkFullId ctx.folder n ∉ seen := hseen _ (List.mem_cons_self _ _)
      have hndtail : (rest.filterMap (entryFullId ctx.folder)).Nodup :=
        (List.nodup_cons.mp hnd).2
      have hnotin : mkFullId ctx.folder n ∉ rest.filterMap (entryFullId ctx.folder) :=
        (List.nodup_cons.mp hnd).1
      have htot' : total + estimateBase64Size b64 + (rest.map estOfEntry).sum
          ≤ ctx.maxTotalSize := by
        simp only [List.map_cons, List.sum_cons, hestOf] at htot
        omega
      obtain ⟨res, hres⟩ := ih (i + 1) (total + estimateBase64Size b64)
        (mkFullId ctx.folder n :: seen)
        (fun g hg => hgood g (List.mem_cons_of_mem _ hg))
        (by omega)
        hndtail
        (by intro x hx hc
            cases List.mem_cons.mp hc with
            | inl h' => exact hnotin (h' ▸ hx)
            | inr h' => exact hseen x (List.mem_cons_of_mem _ hx) h')
      exact ⟨_, by
        unfold prepareFiles
        dsimp only []
        simp only [hname, hb64, hdec]
        rw [if_neg (by omega), if_neg (by omega), if_neg (by omega),
          if_neg (by simp [hresv]), if_neg hmem, hres]⟩

/-- C4: (a) an entry whose estimated decoded size is 0 or above
`MaxSingleFileSize` makes the whole batch fail with `INVALID_REQUEST`;
(b) a batch of individually valid entries with distinct target paths whose
estimates sum to at most (in particular, exactly) `MaxTotalSize` passes the
budgeter; (c) the total check is incremental: as soon as the running sum
first exceeds the budget the loop stops with the total-size error,
independent of every later entry. -/
theorem c4_size_budget_enforcement :
    (∀ (ctx : PrepCtx) (fs : List FileInput) (i : Nat),
       (∃ (k : Nat) (f : FileInput), fs[k]? = some f ∧ entrySizeBad ctx f) →
       ∃ e, prepareFiles ctx i 0 [] fs = .error e ∧ e.code = some "INVALID_REQUEST")
    ∧ (∀ (ctx : PrepCtx) (fs : List FileInput),
         (∀ f ∈ fs, entryOkFor ctx f) →
         (fs.map estOfEntry).sum ≤ ctx.maxTotalSize →
         (fs.filterMap (entryFullId ctx.folder)).Nodup →
         ∃ res, prepareFiles ctx 0 0 [] fs = .ok res)
    ∧ (∀ (ctx : PrepCtx) (gs : List FileInput) (f : FileInput)
         (rest : List FileInput) (i : Nat) (res : List PreparedFile)
         (n b64 : String),
         prepareFiles ctx i 0 [] gs = .ok res →
         normalizeFileName f.name = .ok n →
         normalizeContentBase64 f.contentBase64 = .ok b64 →
         0 < estimateBase64Size b64 →
         estimateBase64Size b64 ≤ ctx.maxSingleFileSize →
         ctx.maxTotalSize < estSum res + estimateBase64Size b64 →
         prepareFiles ctx i 0 [] (gs ++ f :: rest) =
           .error (totalSizeError ctx.maxTotalSize)) := by
  refine ⟨?_, ?_, ?_⟩
  · intro ctx fs i hex
    cases hp : prepareFiles ctx i 0 [] fs with
    | error e =>
        exact ⟨e, rfl, (prepareFiles_error_invalid ctx fs i 0 [] e hp).1⟩
    | ok res =>
        exfalso
        obtain ⟨k, f, hk, ⟨n, hn⟩, ⟨b64, hb64, hsz⟩⟩ := hex
        obtain ⟨_, hidx, _, _⟩ := prepareFiles_ok_spec ctx fs i 0 [] res hp
        obtain ⟨pf, _, _, hcb, hpos, hle, _⟩ := hidx k f hk
        rw [hb64] at hcb
        rw [Except.ok.inj hcb] at hsz
        rcases hsz with h | h <;> omega
  · intro ctx fs hgood htot hnd
    exact prepareFiles_ok_of_good ctx fs 0 0 [] hgood (by simpa using htot) hnd
      (by simp)
  · intro ctx gs f rest i res n b64 hgs hname hb64 hpos hle hover
    rw [prepareFiles_append ctx gs i 0 [] res (f :: rest) hgs]
    have hstep : prepareFiles ctx (i + gs.length) (0 + estSum res)
        ((res.map (fun pf => pf.fullId)).reverse ++ []) (f :: rest)
        = .error (totalSizeError ctx.maxTotalSize) := by
      conv_lhs => unfold prepareFiles
      dsimp only []
      simp only [hname, hb64]
      rw [if_neg (by omega), if_neg (by omega), if_pos (by omega)]
    rw [hstep]
    rfl

/-- A concrete prepare context for the C4 witness: single-file limit 3
bytes, batch budget 4 bytes. -/
def c4ctx : PrepCtx :=
  ⟨"", 3, 4, "203.0.113.9", "addr", 0, fun _ _ => none⟩

/-- A concrete batch whose estimated sizes are 3 and 1 bytes: sum exactly
the 4-byte budget. -/
def c4files : List FileInput :=
  [⟨some "a.bin", none, some "QUJD", none⟩,
   ⟨some "b.bin", none, some "QQ==", none⟩]

/-- Witness for C4 at a concrete batch summing exactly to `MaxTotalSize`:
the budgeter accepts it. -/
theorem c4_size_budget_enforcement_witness :
    ∃ res, prepareFiles c4ctx 0 0 [] c4files = .ok res :=
  c4_size_budget_enforcement.2.1 c4ctx c4files
    (by
      intro g hg
      simp only [c4files, List.mem_cons, List.not_mem_nil, or_false] at hg
      rcases hg with rfl | rfl
      · exact ⟨"a.bin", "QUJD", [65, 66, 67], rfl, rfl, by decide, by decide, rfl, rfl⟩
      · exact ⟨"b.bin", "QQ==", [65], rfl, rfl, by decide, by decide, rfl, rfl⟩)
    (by decide)
    (by decide)

/-! ## Lemmas about the handler's control flow (used by C1, C2, C5, C8, C9) -/

/-- When the channel gates pass, `processBatch` is preparation followed by
the commit stage. -/
theorem processBatch_channel (env : Env) (b : ReqBody) (fs : List FileInput)
    (folder : String) (rid? : Option String) (deletes : List String) (ch : Channel)
    (h : resolvedChannel env b = some ch) :
    processBatch env b fs folder rid? deletes =
      match prepareFiles (mkPrepCtx env folder) 0 0 [] fs with
      | .error e => ⟨toErrorResponse e, 0, deletes, [], []⟩
      | .ok prepared => afterPrepare env b rid? deletes ch prepared := by
  unfold resolvedChannel at h
  split at h
  · nomatch h
  · rename_i hf hcfg
    split at h
    · nomatch h
    · rename_i hlen
      split at h
      · nomatch h
      · rename_i ch' hsel
        split at h
        · nomatch h
        · rename_i htok
          cases Option.some.inj h
          unfold processBatch
          rw [hcfg]
          dsimp only []
          rw [if_neg hlen, hsel]
          dsimp only []
          rw [if_neg htok]

/-- Once the request gates pass, the handler is the idempotency gate
followed by batch processing. -/
theorem onRequestPost_reaches (env : Env) (b : ReqBody) (fs : List FileInput)
    (rid? : Option String) (folder : String)
    (hauth : env.authOk = true)
    (hbody : env.body = some b)
    (hfiles : b.files = some fs)
    (hne : fs ≠ [])
    (hmax : fs.length ≤ env.maxFiles)
    (hrid : checkRequestId b.requestId = .ok rid?)
    (hfolder : normalizeUploadFolder b.uploadFolder = .ok folder) :
    onRequestPost env =
      match idemLookup env rid? with
      | .hit payload => ⟨jsonResponse (setIdempotentFlag payload) 200, 0, [], [], []⟩
      | .corrupt key => processBatch env b fs folder rid? [key]
      | .miss => processBatch env b fs folder rid? [] := by
  unfold onRequestPost
  rw [hauth, hbody]
  dsimp only []
  rw [hfiles]
  dsimp only []
  have h0 : ¬(fs.length = 0) := by simp [hne]
  have h1 : ¬(fs.length > env.maxFiles) := Nat.not_lt.mpr hmax
  rw [if_neg (show ¬(true = false) by simp), if_neg h0, if_neg h1, hrid]
  dsimp only []
  rw [hfolder]

/-- The commit stage performs exactly one backend invocation, whatever the
commit's outcome. -/
theorem afterPrepare_commits (env : Env) (b : ReqBody) (rid? : Option String)
    (deletes : List String) (ch : Channel) (prepared : List PreparedFile) :
    (afterPrepare env b rid? deletes ch prepared).commits = 1 := by
  unfold afterPrepare
  split <;> rfl

theorem processBatch_commits_le (env : Env) (b : ReqBody) (fs : List FileInput)
    (folder : String) (rid? : Option String) (deletes : List String) :
    (processBatch env b fs folder rid? deletes).commits ≤ 1 := by
  unfold processBatch
  repeat' split
  all_goals first
    | (rw [afterPrepare_commits])
    | simp [chanNotFound]

theorem onRequestPost_commits_le (env : Env) :
    (onRequestPost env).commits ≤ 1 := by
  unfold onRequestPost
  repeat' split
  all_goals first
    | exact processBatch_commits_le _ _ _ _ _ _
    | simp

/-- `toErrorResponse` on a 400 `INVALID_REQUEST` error. -/
theorem toErrorResponse_invalid (e : ApiError)
    (hc : e.code = some "INVALID_REQUEST") (hs : e.status = some 400) :
    toErrorResponse e = ⟨400, mkErrorBody "INVALID_REQUEST" e.message⟩ := by
  unfold toErrorResponse
  rw [if_pos hc]
  unfold jsonResponse natOrDefault
  rw [hs]
  rfl

theorem getField_mkErrorBody_code (c m : String) :
    getField (mkErrorBody c m) "code" = some (.str c) := rfl

theorem getField_mkErrorBody_success (c m : String) :
    getField (mkErrorBody c m) "success" = some (.bool false) := rfl

/-! ## C1: exactly one backend transaction per valid batch -/

/-- C1: for every request that passes the gates (auth, body, non-empty
in-bound file list, request-id shape, folder), is not replayed from the
ledger, resolves a usable channel, and whose batch passes preparation, the
handler invokes `uploadFilesInSingleCommit` exactly once — whatever the
commit's own outcome; and on every run whatsoever the handler performs at
most one backend transaction. -/
theorem c1_single_commit_invocation :
    (∀ (env : Env) (b : ReqBody) (fs : List FileInput) (rid? : Option String)
       (folder : String) (ch : Channel) (prepared : List PreparedFile),
       env.authOk = true →
       env.body = some b →
       b.files = some fs →
       fs ≠ [] →
       fs.length ≤ env.maxFiles →
       checkRequestId b.requestId = .ok rid? →
       normalizeUploadFolder b.uploadFolder = .ok folder →
       (idemLookup env rid?).isHit = false →
       resolvedChannel env b = some ch →
       prepareFiles (mkPrepCtx env folder) 0 0 [] fs = .ok prepared →
       (onRequestPost env).commits = 1)
    ∧ (∀ env : Env, (onRequestPost env).commits ≤ 1) := by
  constructor
  · intro env b fs rid? folder ch prepared hauth hbody hfiles hne hmax hrid hfolder
      hnohit hchan hprep
    rw [onRequestPost_reaches env b fs rid? folder hauth hbody hfiles hne hmax hrid hfolder]
    cases hid : idemLookup env rid? with
    | hit payload =>
        rw [hid] at hnohit
        simp [IdemOutcome.isHit] at hnohit
    | corrupt key =>
        dsimp only []
        rw [processBatch_channel env b fs folder rid? [key] ch hchan, hprep]
        exact afterPrepare_commits env b rid? [key] ch prepared
    | miss =>
        dsimp only []
        rw [processBatch_channel env b fs folder rid? [] ch hchan, hprep]
        exact afterPrepare_commits env b rid? [] ch prepared
  · exact onRequestPost_commits_le

/-- The concrete request body used by the handler-level witnesses. -/
def wBody : ReqBody :=
  ⟨some "demo", none, some [⟨some "a.jpg", some "image/jpeg", some "QQ==", none⟩],
   none, none⟩

def wChan : Channel := ⟨some "hf1", "tok", "owner/repo", false⟩

/-- A concrete environment: one valid one-file batch, one configured
channel, empty ledger, commit succeeding with id `sha123`. -/
def wEnv : Env :=
  { authOk := true
    body := some wBody
    maxFiles := 50
    maxTotalSize := 100
    maxSingleFileSize := 50
    dbGet := fun _ => none
    parseJson := fun _ => none
    uploadConfig := some ⟨[wChan], false⟩
    moderateEnabled := false
    randomIndex := 0
    uploadIp := "203.0.113.9"
    uploadAddress := "addr"
    now := 42
    imageDims := fun _ _ => none
    commitCall := fun _ _ => .ok (.obj [("commit", .obj [("oid", .str "sha123")])])
    getFileURL := fun p => "https://hf.example/" ++ p
    hostname := "img.example"
    moderate := fun _ => none }

/-- Witness for C1: on the concrete happy-path environment the handler
performs exactly one commit. -/
theorem c1_single_commit_invocation_witness :
    (onRequestPost wEnv).commits = 1 ∧ (onRequestPost wEnv).commits ≤ 1 :=
  ⟨c1_single_commit_invocation.1 wEnv wBody
      [⟨some "a.jpg", some "image/jpeg", some "QQ==", none⟩] none "demo" wChan _
      rfl rfl rfl (by simp) (by decide) rfl rfl rfl rfl rfl,
   c1_single_commit_invocation.2 wEnv⟩

/-! ## C5: duplicate target paths always rejected before any commit -/

/-- C5: when the request reaches the batch stage and two entries at
distinct positions resolve to the same full target path, the run performs
no backend transaction and answers 400 `INVALID_REQUEST`. -/
theorem c5_duplicate_paths_rejected
    (env : Env) (b : ReqBody) (fs : List FileInput) (rid? : Option String)
    (folder : String) (ch : Channel) (i j : Nat) (fi fj : FileInput) (p : String)
    (hauth : env.authOk = true) (hbody : env.body = some b)
    (hfiles : b.files = some fs) (hne : fs ≠ [])
    (hmax : fs.length ≤ env.maxFiles)
    (hrid : checkRequestId b.requestId = .ok rid?)
    (hfolder : normalizeUploadFolder b.uploadFolder = .ok folder)
    (hnohit : (idemLookup env rid?).isHit = false)
    (hchan : resolvedChannel env b = some ch)
    (hij : i < j)
    (hfi : fs[i]? = some fi) (hfj : fs[j]? = some fj)
    (hpi : entryFullId folder fi = some p) (hpj : entryFullId folder fj = some p) :
    (onRequestPost env).commits = 0 ∧
    (onRequestPost env).response.status = 400 ∧
    getField (onRequestPost env).response.body "code" = some (.str "INVALID_REQUEST") := by
  have hjlen : j < fs.length := by
    by_contra hlt
    push_neg at hlt
    rw [List.getElem?_eq_none hlt] at hfj
    nomatch hfj
  have herr : ∀ res, prepareFiles (mkPrepCtx env folder) 0 0 [] fs ≠ .ok res := by
    intro res hok
    obtain ⟨hlen, hidx, hnd, _⟩ := prepareFiles_ok_spec _ fs 0 0 [] res hok
    obtain ⟨pfi, hgi, hni, _, _, _, hfidi⟩ := hidx i fi hfi
    obtain ⟨pfj, hgj, hnj, _, _, _, hfidj⟩ := hidx j fj hfj
    unfold entryFullId at hpi hpj
    rw [hni] at hpi
    rw [hnj] at hpj
    dsimp only [mkPrepCtx] at hfidi hfidj
    have hpi' : pfi.fullId = p := by
      rw [hfidi]
      exact Option.some.inj hpi
    have hpj' : pfj.fullId = p := by
      rw [hfidj]
      exact Option.some.inj hpj
    have hmi : (res.map (fun pf => pf.fullId))[i]? = some p := by
      rw [List.getElem?_map, hgi]
      simp [hpi']
    have hmj : (res.map (fun pf => pf.fullId))[j]? = some p := by
      rw [List.getElem?_map, hgj]
      simp [hpj']
    have hlt : i < (res.map (fun pf => pf.fullId)).length := by
      rw [List.length_map, hlen]
      omega
    have := List.getElem?_inj hlt hnd (hmi.trans hmj.symm)
    omega
  cases hp : prepareFiles (mkPrepCtx env folder) 0 0 [] fs with
  | ok res => exact absurd hp (herr res)
  | error e =>
    obtain ⟨hc, hs⟩ := prepareFiles_error_invalid _ fs 0 0 [] e hp
    have hresp := toErrorResponse_invalid e hc hs
    rw [onRequestPost_reaches env b fs rid? folder hauth hbody hfiles hne hmax hrid hfolder]
    cases hid : idemLookup env rid? with
    | hit payload =>
        rw [hid] at hnohit
        simp [IdemOutcome.isHit] at hnohit
    | corrupt key =>
        dsimp only []
        rw [processBatch_channel env b fs folder rid? [key] ch hchan, hp]
        refine ⟨rfl, ?_, ?_⟩
        · show (toErrorResponse e).status = 400
          rw [hresp]
        · show getField (toErrorResponse e).body "code" = some (.str "INVALID_REQUEST")
          rw [hresp]
          exact getField_mkErrorBody_code _ _
    | miss =>
        dsimp only []
        rw [processBatch_channel env b fs folder rid? [] ch hchan, hp]
        refine ⟨rfl, ?_, ?_⟩
        · show (toErrorResponse e).status = 400
          rw [hresp]
        · show getField (toErrorResponse e).body "code" = some (.str "INVALID_REQUEST")
          rw [hresp]
          exact getField_mkErrorBody_code _ _

/-- The C5 witness body: two entries whose names trim to the same target
path `a.jpg`. -/
def c5body : ReqBody :=
  ⟨none, none,
   some [⟨some "a.jpg", none, some "QQ==", none⟩,
         ⟨some " a.jpg ", none, some "QUJD", none⟩],
   none, none⟩

def c5env : Env := { wEnv with body := some c5body }

/-- Witness for C5 at a concrete batch with a duplicated target path:
no commit, 400, `INVALID_REQUEST`. -/
theorem c5_duplicate_paths_rejected_witness :
    (onRequestPost c5env).commits = 0 ∧
    (onRequestPost c5env).response.status = 400 ∧
    getField (onRequestPost c5env).response.body "code" = some (.str "INVALID_REQUEST") :=
  c5_duplicate_paths_rejected c5env c5body
    [⟨some "a.jpg", none, some "QQ==", none⟩, ⟨some " a.jpg ", none, some "QUJD", none⟩]
    none "" wChan 0 1
    ⟨some "a.jpg", none, some "QQ==", none⟩ ⟨some " a.jpg ", none, some "QUJD", none⟩
    "a.jpg" rfl rfl rfl (by simp) (by decide) rfl rfl rfl rfl (by decide) rfl rfl rfl rfl

/-! ## C2: idempotent replay of a stored object payload -/

theorem find_setIdem_hit (l : List (String × JsonValue))
    (h : l.any (fun p => p.1 = "idempotent") = true) :
    ((l.map (fun p => if p.1 = "idempotent" then (p.1, JsonValue.bool true) else p)).find?
      (fun p => p.1 = "idempotent")).map (fun p => p.2) = some (.bool true) := by
  induction l with
  | nil => simp at h
  | cons a rest ih =>
      by_cases ha : a.1 = "idempotent"
      · simp [List.find?_cons, ha]
      · simp only [List.any_cons] at h
        have h' : rest.any (fun p => p.1 = "idempotent") = true := by
          rcases Bool.or_eq_true_iff.mp h with h' | h'
          · exact absurd (by simpa using h') ha
          · exact h'
        simp only [List.map_cons, if_neg ha, List.find?_cons]
        have hd : (decide (a.1 = "idempotent")) = false := by simp [ha]
        rw [hd]
        exact ih h'

theorem find_setIdem_other (l : List (String × JsonValue)) (k : String)
    (hk : k ≠ "idempotent") :
    (l.map (fun p => if p.1 = "idempotent" then (p.1, JsonValue.bool true) else p)).find?
      (fun p => p.1 = k) = l.find? (fun p => p.1 = k) := by
  induction l with
  | nil => rfl
  | cons a rest ih =>
      by_cases ha : a.1 = "idempotent"
      · have hka : ¬(a.1 = k) := by rw [ha]; exact fun hc => hk hc.symm
        have hd : (decide (a.1 = k)) = false := by simp [hka]
        simp only [List.map_cons, if_pos ha, List.find?_cons, hd]
        exact ih
      · by_cases hak : a.1 = k
        · have hd : (decide (a.1 = k)) = true := by simp [hak]
          simp only [List.map_cons, if_neg ha, List.find?_cons, hd]
        · have hd : (decide (a.1 = k)) = false := by simp [hak]
          simp only [List.map_cons, if_neg ha, List.find?_cons, hd]
          exact ih

theorem getField_setIdem (fields : List (String × JsonValue)) :
    getField (.obj (setIdemFields fields)) "idempotent" = some (.bool true) := by
  show ((setIdemFields fields).find? (fun p => p.1 = "idempotent")).map (fun p => p.2)
      = some (.bool true)
  unfold setIdemFields
  split
  · next h => exact find_setIdem_hit fields h
  · next h =>
      rw [List.find?_append]
      have hnone : fields.find? (fun p => p.1 = "idempotent") = none := by
        rw [List.find?_eq_none]
        intro x hx hpx
        simp only [Bool.not_eq_true] at h
        exact absurd hpx (by simpa using List.any_eq_false.mp h x hx)
      rw [hnone]
      rfl

theorem getField_setIdem_other (fields : List (String × JsonValue)) (k : String)
    (hk : k ≠ "idempotent") :
    getField (.obj (setIdemFields fields)) k = getField (.obj fields) k := by
  show ((setIdemFields fields).find? (fun p => p.1 = k)).map (fun p => p.2)
      = (fields.find? (fun p => p.1 = k)).map (fun p => p.2)
  unfold setIdemFields
  split
  · rw [find_setIdem_other fields k hk]
  · rw [List.find?_append]
    cases hf : fields.find? (fun p => p.1 = k) with
    | some v => rfl
    | none =>
        have hni : ¬(("idempotent" : String) = k) := fun hc => hk hc.symm
        have hone : ([(("idempotent" : String), JsonValue.bool true)]).find?
            (fun p => p.1 = k) = none := by
          simp [List.find?_cons, hni]
        simp [hone]

/-- C2: a request carrying a validated identifier whose ledger entry exists,
is non-empty, and parses to a JSON object is answered 200 with that stored
object, its `idempotent` field set to `true` and every other field exactly
as stored; no backend transaction, no store write and no store delete
happen on that run. -/
theorem c2_idempotent_replay
    (env : Env) (b : ReqBody) (fs : List FileInput) (rid : String)
    (folder : String) (stored : String) (fields : List (String × JsonValue))
    (hauth : env.authOk = true) (hbody : env.body = some b)
    (hfiles : b.files = some fs) (hne : fs ≠ [])
    (hmax : fs.length ≤ env.maxFiles)
    (hrid : checkRequestId b.requestId = .ok (some rid))
    (hfolder : normalizeUploadFolder b.uploadFolder = .ok folder)
    (hget : env.dbGet (idemKey rid) = some stored)
    (hstored : stored ≠ "")
    (hparse : env.parseJson stored = some (.obj fields)) :
    (onRequestPost env).response.status = 200 ∧
    (onRequestPost env).response.body = .obj (setIdemFields fields) ∧
    getField (onRequestPost env).response.body "idempotent" = some (.bool true) ∧
    (∀ k, k ≠ "idempotent" →
       getField (onRequestPost env).response.body k = getField (.obj fields) k) ∧
    (onRequestPost env).commits = 0 ∧
    (onRequestPost env).puts = [] ∧
    (onRequestPost env).deletes = [] := by
  have hid : idemLookup env (some rid) = .hit (.obj fields) := by
    unfold idemLookup
    dsimp only []
    rw [hget]
    dsimp only []
    rw [if_neg hstored, hparse]
    rfl
  rw [onRequestPost_reaches env b fs (some rid) folder hauth hbody hfiles hne hmax
    hrid hfolder, hid]
  refine ⟨rfl, rfl, ?_, ?_, rfl, rfl, rfl⟩
  · exact getField_setIdem fields
  · intro k hk
    exact getField_setIdem_other fields k hk

def c2body : ReqBody := { wBody with requestId := some "r1" }

def c2env : Env :=
  { wEnv with
    body := some c2body
    dbGet := fun k => if k = "manage@hf_batch_request@r1" then some "OBJ" else none
    parseJson := fun s =>
      if s = "OBJ" then some (.obj [("success", .bool true), ("commitId", .str "old")])
      else none }

/-- Witness for C2 at a concrete environment with a stored object payload:
the replay answers 200 with zero commits. -/
theorem c2_idempotent_replay_witness :
    (onRequestPost c2env).response.status = 200 ∧ (onRequestPost c2env).commits = 0 :=
  ⟨(c2_idempotent_replay c2env c2body
      [⟨some "a.jpg", some "image/jpeg", some "QQ==", none⟩] "r1" "demo" "OBJ"
      [("success", .bool true), ("commitId", .str "old")]
      rfl rfl rfl (by simp) (by decide) rfl rfl rfl (by decide) rfl).1,
   (c2_idempotent_replay c2env c2body
      [⟨some "a.jpg", some "image/jpeg", some "QQ==", none⟩] "r1" "demo" "OBJ"
      [("success", .bool true), ("commitId", .str "old")]
      rfl rfl rfl (by simp) (by decide) rfl rfl rfl (by decide) rfl).2.2.2.2.1⟩

/-! ## C8: corrupt ledger entries -/

theorem processBatch_deletes (env : Env) (b : ReqBody) (fs : List FileInput)
    (folder : String) (rid? : Option String) (deletes : List String) :
    (processBatch env b fs folder rid? deletes).deletes = deletes := by
  unfold processBatch afterPrepare chanNotFound
  repeat' split
  all_goals rfl

/-- C8 (amended): an entry that fails to parse, or parses to `null` or a
non-object primitive (number, string, boolean), is deleted and the run
continues into the same batch-processing continuation a miss takes; a miss
(absent entry) enters that continuation with no delete recorded.  (The
original claim also covered parsed arrays, but the code replays those --
see the counterexample.) -/
theorem c8_corrupt_entry_deleted_and_missed :
    (∀ (env : Env) (b : ReqBody) (fs : List FileInput) (rid folder stored : String),
       env.authOk = true → env.body = some b → b.files = some fs → fs ≠ [] →
       fs.length ≤ env.maxFiles →
       checkRequestId b.requestId = .ok (some rid) →
       normalizeUploadFolder b.uploadFolder = .ok folder →
       env.dbGet (idemKey rid) = some stored → stored ≠ "" →
       (env.parseJson stored = none ∨
         ∃ v, env.parseJson stored = some v ∧ isReplayableJson v = false) →
       onRequestPost env = processBatch env b fs folder (some rid) [idemKey rid] ∧
       (onRequestPost env).deletes = [idemKey rid])
    ∧ (∀ (env : Env) (b : ReqBody) (fs : List FileInput) (rid folder : String),
         env.authOk = true → env.body = some b → b.files = some fs → fs ≠ [] →
         fs.length ≤ env.maxFiles →
         checkRequestId b.requestId = .ok (some rid) →
         normalizeUploadFolder b.uploadFolder = .ok folder →
         env.dbGet (idemKey rid) = none →
         onRequestPost env = processBatch env b fs folder (some rid) [] ∧
         (onRequestPost env).deletes = []) := by
  constructor
  · intro env b fs rid folder stored hauth hbody hfiles hne hmax hrid hfolder hget
      hstored hbad
    have hid : idemLookup env (some rid) = .corrupt (idemKey rid) := by
      unfold idemLookup
      dsimp only []
      rw [hget]
      dsimp only []
      rw [if_neg hstored]
      rcases hbad with h | ⟨v, hv, hrep⟩
      · rw [h]
      · rw [hv]
        dsimp only []
        rw [if_neg (by simp [hrep])]
    have heq := onRequestPost_reaches env b fs (some rid) folder hauth hbody hfiles
      hne hmax hrid hfolder
    rw [heq, hid]
    exact ⟨rfl, processBatch_deletes env b fs folder (some rid) [idemKey rid]⟩
  · intro env b fs rid folder hauth hbody hfiles hne hmax hrid hfolder hget
    have hid : idemLookup env (some rid) = .miss := by
      unfold idemLookup
      dsimp only []
      rw [hget]
    have heq := onRequestPost_reaches env b fs (some rid) folder hauth hbody hfiles
      hne hmax hrid hfolder
    rw [heq, hid]
    exact ⟨rfl, processBatch_deletes env b fs folder (some rid) []⟩

def c8body : ReqBody := { wBody with requestId := some "r1" }

/-- Environment whose ledger entry for `r1` is the string `"[]"`, which
`JSON.parse` turns into an (empty) array. -/
def c8env : Env :=
  { wEnv with
    body := some c8body
    dbGet := fun k => if k = "manage@hf_batch_request@r1" then some "[]" else none
    parseJson := fun s => if s = "[]" then some (.arr []) else none }

/-- C8 counterexample: a stored value that parses to a JSON *array* -- a
non-object by the claim's reading -- is not deleted and the request does
not proceed as a miss: the array is replayed as a 200 response (the
`idempotent` property written onto the array is dropped by
`JSON.stringify`), with no commit. -/
theorem c8_corrupt_entry_counterexample :
    (onRequestPost c8env).deletes = ([] : List String) ∧
    (onRequestPost c8env).response.status = 200 ∧
    (onRequestPost c8env).response.body = JsonValue.arr [] ∧
    (onRequestPost c8env).commits = 0 :=
  ⟨rfl, rfl, rfl, rfl⟩

/-- Environment whose ledger entry for `r1` parses to the number 5. -/
def c8numEnv : Env :=
  { wEnv with
    body := some c8body
    dbGet := fun k => if k = "manage@hf_batch_request@r1" then some "5" else none
    parseJson := fun s => if s = "5" then some (.num 5) else none }

/-- Witness for the amended C8: a stored numeric entry is deleted. -/
theorem c8_corrupt_entry_deleted_and_missed_witness :
    (onRequestPost c8numEnv).deletes = ["manage@hf_batch_request@r1"] :=
  (c8_corrupt_entry_deleted_and_missed.1 c8numEnv c8body
    [⟨some "a.jpg", some "image/jpeg", some "QQ==", none⟩] "r1" "demo" "5"
    rfl rfl rfl (by simp) (by decide) rfl rfl rfl (by decide)
    (Or.inr ⟨.num 5, rfl, rfl⟩)).2

/-! ## C9: response lists every input file, or the whole request fails -/

theorem checkRequestId_error (r : Option String) (resp : HttpResponse)
    (h : checkRequestId r = .error resp) : resp = requestIdErrorResponse := by
  cases r with
  | none => exact absurd h (by simp [checkRequestId])
  | some s =>
      unfold checkRequestId at h
      dsimp only [] at h
      split at h
      · exact (Except.error.inj h).symm
      · exact absurd h (by simp)

/-- Every response built by `toErrorResponse` carries `success: false`. -/
theorem toErrorResponse_success_false (e : ApiError) :
    getField (toErrorResponse e).body "success" = some (.bool false) := by
  unfold toErrorResponse
  repeat' split
  all_goals rfl

/-- Past the idempotency gate, a run either answers with `success: false`
or commits some channel's prepared batch and answers with its payload. -/
theorem processBatch_outcome (env : Env) (b : ReqBody) (fs : List FileInput)
    (folder : String) (rid? : Option String) (deletes : List String) :
    getField (processBatch env b fs folder rid? deletes).response.body "success"
      = some (.bool false)
    ∨ (∃ (ch : Channel) (prepared : List PreparedFile) (cj : JsonValue),
         prepareFiles (mkPrepCtx env folder) 0 0 [] fs = .ok prepared ∧
         (processBatch env b fs folder rid? deletes).response.body
           = successPayload rid? ch cj prepared) := by
  unfold processBatch
  split
  · left; rfl
  · split
    · left; rfl
    · split
      · left; rfl
      · rename_i ch hsel
        split
        · left; rfl
        · split
          · rename_i e heq
            left
            show getField (toErrorResponse e).body "success" = some (.bool false)
            exact toErrorResponse_success_false e
          · rename_i prepared hprep
            unfold afterPrepare
            split
            · rename_i e heq
              left
              show getField (toErrorResponse e).body "success" = some (.bool false)
              exact toErrorResponse_success_false e
            · rename_i cj heq
              right
              exact ⟨ch, prepared, cj, hprep, rfl⟩

/-- The batch stage satisfies the all-or-nothing shape of C9. -/
theorem processBatch_no_partial (env : Env) (b : ReqBody) (fs : List FileInput)
    (folder : String) (rid? : Option String) (deletes : List String)
    (hfold : normalizeUploadFolder b.uploadFolder = .ok folder) :
    getField (processBatch env b fs folder rid? deletes).response.body "success"
      = some (.bool false)
    ∨ (∃ (folder' : String) (items : List JsonValue),
         normalizeUploadFolder b.uploadFolder = .ok folder' ∧
         getField (processBatch env b fs folder rid? deletes).response.body "files"
           = some (.arr items) ∧
         items.length = fs.length ∧
         (∀ (k : Nat) (g : FileInput), fs[k]? = some g →
            ∃ name, normalizeFileName g.name = .ok name ∧
              items[k]? = some (.obj
                [("name", .str name),
                 ("src", .str ("/file/" ++ encodeFileIdForUrl (mkFullId folder' name))),
                 ("fullId", .str (mkFullId folder' name))]))) := by
  rcases processBatch_outcome env b fs folder rid? deletes with h | ⟨ch, prepared, cj, hprep, hbodyeq⟩
  · left; exact h
  · right
    obtain ⟨hlen, hidx, _, _⟩ := prepareFiles_ok_spec _ fs 0 0 [] prepared hprep
    refine ⟨folder, prepared.map respFileJson, hfold, ?_, ?_, ?_⟩
    · rw [hbodyeq]
      rfl
    · rw [List.length_map]
      exact hlen
    · intro k g hk
      obtain ⟨pf, hpf, hnm, _, _, _, hfid⟩ := hidx k g hk
      refine ⟨pf.name, hnm, ?_⟩
      rw [List.getElem?_map, hpf]
      dsimp only [mkPrepCtx] at hfid
      simp [respFileJson, hfid]

/-- C9: for every request (not replayed from the ledger), either the
response says `success: false` -- the request failed as a whole -- or the
`files` array has exactly one entry per input file in input order, each
carrying the target path `folder/name` (`name` alone for the empty
folder). -/
theorem c9_response_complete_or_failed
    (env : Env) (b : ReqBody) (fs : List FileInput)
    (hbody : env.body = some b) (hfiles : b.files = some fs)
    (hnoreplay : ∀ rid, checkRequestId b.requestId = .ok (some rid) →
       (idemLookup env (some rid)).isHit = false) :
    getField (onRequestPost env).response.body "success" = some (.bool false)
    ∨ (∃ (folder : String) (items : List JsonValue),
         normalizeUploadFolder b.uploadFolder = .ok folder ∧
         getField (onRequestPost env).response.body "files" = some (.arr items) ∧
         items.length = fs.length ∧
         (∀ (k : Nat) (g : FileInput), fs[k]? = some g →
            ∃ name, normalizeFileName g.name = .ok name ∧
              items[k]? = some (.obj
                [("name", .str name),
                 ("src", .str ("/file/" ++ encodeFileIdForUrl (mkFullId folder name))),
                 ("fullId", .str (mkFullId folder name))]))) := by
  unfold onRequestPost
  cases hauth : env.authOk with
  | false => left; rfl
  | true =>
    rw [if_neg (show ¬(true = false) by simp), hbody]
    dsimp only []
    rw [hfiles]
    dsimp only []
    by_cases hlen0 : fs.length = 0
    · rw [if_pos hlen0]
      left; rfl
    · rw [if_neg hlen0]
      by_cases hmaxf : fs.length > env.maxFiles
      · rw [if_pos hmaxf]
        left; rfl
      · rw [if_neg hmaxf]
        cases hrid : checkRequestId b.requestId with
        | error resp =>
            dsimp only []
            rw [checkRequestId_error b.requestId resp hrid]
            left; rfl
        | ok rid? =>
            dsimp only []
            cases hfold : normalizeUploadFolder b.uploadFolder with
            | error e =>
                dsimp only []
                left
                exact toErrorResponse_success_false e
            | ok folder =>
                dsimp only []
                cases hid : idemLookup env rid? with
                | hit payload =>
                    cases rid? with
                    | none => simp [idemLookup] at hid
                    | some rid =>
                        have hh := hnoreplay rid hrid
                        rw [hid] at hh
                        simp [IdemOutcome.isHit] at hh
                | corrupt key =>
                    dsimp only []
                    rcases processBatch_no_partial env b fs folder rid? [key] hfold
                      with h | ⟨f', items, hf', h2, h3, h4⟩
                    · left; exact h
                    · right; exact ⟨f', items, hfold.symm.trans hf', h2, h3, h4⟩
                | miss =>
                    dsimp only []
                    rcases processBatch_no_partial env b fs folder rid? [] hfold
                      with h | ⟨f', items, hf', h2, h3, h4⟩
                    · left; exact h
                    · right; exact ⟨f', items, hfold.symm.trans hf', h2, h3, h4⟩

/-- Witness for C9 on the concrete happy-path environment: the `files`
array lists exactly the one input file at `demo/a.jpg`. -/
theorem c9_response_complete_or_failed_witness :
    getField (onRequestPost wEnv).response.body "files"
      = some (.arr [.obj [("name", .str "a.jpg"), ("src", .str "/file/demo/a.jpg"),
          ("fullId", .str "demo/a.jpg")]]) := by
  rcases c9_response_complete_or_failed wEnv wBody
      [⟨some "a.jpg", some "image/jpeg", some "QQ==", none⟩] rfl rfl
      (by intro rid h; simp [checkRequestId, wBody] at h) with h | ⟨folder, items, _, hfiles, _, _⟩
  · rw [show getField (onRequestPost wEnv).response.body "success"
        = some (.bool true) from rfl] at h
    simp at h
  · exact rfl

/-! ## C3: the commit-stage error response -/

/-- An error tagged with the commit-stage marker that *also* carries a 429
status (e.g. the backend rate-limits the commit call itself). -/
def c3err : ApiError :=
  ⟨none, "rate limited during commit", some 429, some "commit", some 30,
   [("a.jpg", "demo/a.jpg")]⟩

/-- C3 counterexample: an error carrying the commit-stage marker together
with status 429 is classified as `RATE_LIMIT`/429, not
`PARTIAL_UPLOAD_NOT_COMMITTED`/502 -- the 429 check precedes the stage
check in `toErrorResponse`. -/
theorem c3_commit_stage_counterexample :
    c3err.stage = some "commit" ∧
    (toErrorResponse c3err).status = 429 ∧
    getField (toErrorResponse c3err).body "code" = some (.str "RATE_LIMIT") ∧
    (toErrorResponse c3err).status ≠ 502 :=
  ⟨rfl, rfl, rfl, by decide⟩

/-- C3 (amended): an error carrying the commit-stage marker whose code is
not `INVALID_REQUEST` and whose status is none of 429/401/403 yields the
502 `PARTIAL_UPLOAD_NOT_COMMITTED` response, echoing the error message and
the list of already-staged files as `{name, filePath}` objects. -/
theorem c3_commit_stage_partial_response (e : ApiError)
    (hstage : e.stage = some "commit")
    (hcode : e.code ≠ some "INVALID_REQUEST")
    (h429 : e.status ≠ some 429)
    (h401 : e.status ≠ some 401) (h403 : e.status ≠ some 403) :
    (toErrorResponse e).status = 502 ∧
    getField (toErrorResponse e).body "code"
      = some (.str "PARTIAL_UPLOAD_NOT_COMMITTED") ∧
    getField (toErrorResponse e).body "error" = some (.str e.message) ∧
    getField (toErrorResponse e).body "uploadedFiles"
      = some (.arr (e.uploadedFiles.map (fun p =>
          .obj [("name", .str p.1), ("filePath", .str p.2)]))) := by
  unfold toErrorResponse
  rw [if_neg hcode, if_neg h429, if_neg (not_or.mpr ⟨h401, h403⟩), if_pos hstage]
  exact ⟨rfl, rfl, rfl, rfl⟩

/-- A commit-stage error as `onRequestPost` actually builds one: no code,
no status, one staged file recorded. -/
def c3wErr : ApiError :=
  ⟨none, "HF commit failed", none, some "commit", none, [("a.jpg", "demo/a.jpg")]⟩

theorem c3_commit_stage_partial_response_witness :
    (toErrorResponse c3wErr).status = 502 ∧
    getField (toErrorResponse c3wErr).body "code"
      = some (.str "PARTIAL_UPLOAD_NOT_COMMITTED") ∧
    getField (toErrorResponse c3wErr).body "error" = some (.str "HF commit failed") ∧
    getField (toErrorResponse c3wErr).body "uploadedFiles"
      = some (.arr [.obj [("name", .str "a.jpg"), ("filePath", .str "demo/a.jpg")]]) :=
  c3_commit_stage_partial_response c3wErr rfl (by decide) (by decide) (by decide) (by decide)

end ImgBed

namespace MimeTypeUtil

/-! ## C10: `resolveMimeType` precedence and non-emptiness -/

theorem normalizeMimeType_ne_empty (m : Option String) (t : String)
    (h : normalizeMimeType m = some t) : t ≠ "" := by
  cases m with
  | none => cases h
  | some s =>
    unfold normalizeMimeType at h
    dsimp only [] at h
    split at h
    · cases h
    · rename_i hne
      split at h
      · intro h0
        exact hne (by rw [Option.some.inj h, h0])
      · cases h

theorem extMime_ne_empty (e v : String) (h : extMime e = some v) : v ≠ "" := by
  unfold extMime at h
  split at h <;> first | (injection h with hv; subst hv; decide) | cases h

theorem inferMimeTypeFromFileName_ne_empty (f : Option String) (v : String)
    (h : inferMimeTypeFromFileName f = some v) : v ≠ "" := by
  cases f with
  | none => cases h
  | some s =>
    unfold inferMimeTypeFromFileName at h
    dsimp only [] at h
    repeat' split at h
    all_goals first | cases h | exact extMime_ne_empty _ v h

theorem extractMimeTypeFromDataUrl_ne_empty (d : Option String) (u : String)
    (h : extractMimeTypeFromDataUrl d = some u) : u ≠ "" := by
  cases d with
  | none => cases h
  | some s =>
    unfold extractMimeTypeFromDataUrl at h
    dsimp only [] at h
    repeat' split at h
    all_goals first | cases h | exact normalizeMimeType_ne_empty _ u h

theorem resolveFallback_ne_empty (f d ni : Option String) (dflt : String)
    (hni : ∀ t, ni = some t → t ≠ "") (hd : dflt ≠ "") :
    resolveFallback f d ni dflt ≠ "" := by
  unfold resolveFallback
  split
  · rename_i u hu; exact extractMimeTypeFromDataUrl_ne_empty d u hu
  · split
    · rename_i v hv; exact inferMimeTypeFromFileName_ne_empty f v hv
    · cases ni with
      | some t => exact hni t rfl
      | none => exact hd

/-- The fallback chain taken in order: data URL, then extension, then the
validated declared type, then the default. -/
theorem resolveFallback_chain (f d ni : Option String) (dflt : String) :
    (∀ u, extractMimeTypeFromDataUrl d = some u → resolveFallback f d ni dflt = u) ∧
    (extractMimeTypeFromDataUrl d = none →
      ((∀ v, inferMimeTypeFromFileName f = some v → resolveFallback f d ni dflt = v) ∧
       (inferMimeTypeFromFileName f = none →
         ((∀ t, ni = some t → resolveFallback f d ni dflt = t) ∧
          (ni = none → resolveFallback f d ni dflt = dflt))))) := by
  refine ⟨fun u hu => ?_, fun he => ⟨fun v hv => ?_, fun hi => ⟨fun t ht => ?_, fun h0 => ?_⟩⟩⟩
  · unfold resolveFallback; rw [hu]
  · unfold resolveFallback; rw [he, hv]
  · unfold resolveFallback; rw [he, hi, ht]
  · unfold resolveFallback; rw [he, hi, h0]

/-- C10 counterexample: with an empty configured `defaultMimeType` and no
usable declared type, data URL or extension, `resolveMimeType` returns the
empty string. -/
theorem c10_resolveMimeType_counterexample :
    resolveMimeType none none none "" = "" := rfl

/-- C10 (amended): whenever the configured default is non-empty, the result
is non-empty; and the resolution order is: a valid non-octet-stream
declared type is returned as normalized; otherwise (invalid or
octet-stream declared type) the data-URL type, then the extension-inferred
type, then the validated octet-stream declared type, then the default. -/
theorem c10_resolveMimeType_precedence_and_nonempty
    (m f d : Option String) (dflt : String) (hd : dflt ≠ "") :
    resolveMimeType m f d dflt ≠ "" ∧
    (∀ t, normalizeMimeType m = some t → isOctetStreamMimeType (some t) = false →
       resolveMimeType m f d dflt = t) ∧
    ((normalizeMimeType m = none ∨
      (∃ t, normalizeMimeType m = some t ∧ isOctetStreamMimeType (some t) = true)) →
      ((∀ u, extractMimeTypeFromDataUrl d = some u → resolveMimeType m f d dflt = u) ∧
       (extractMimeTypeFromDataUrl d = none →
         ((∀ v, inferMimeTypeFromFileName f = some v → resolveMimeType m f d dflt = v) ∧
          (inferMimeTypeFromFileName f = none →
            ((∀ t, normalizeMimeType m = some t → resolveMimeType m f d dflt = t) ∧
             (normalizeMimeType m = none → resolveMimeType m f d dflt = dflt))))))) := by
  refine ⟨?_, ?_, ?_⟩
  · unfold resolveMimeType
    cases hn : normalizeMimeType m with
    | none =>
      dsimp only []
      exact resolveFallback_ne_empty f d none dflt (fun t ht => nomatch ht) hd
    | some t =>
      dsimp only []
      by_cases ho : isOctetStreamMimeType (some t) = true
      · rw [if_pos ho]
        refine resolveFallback_ne_empty f d (some t) dflt ?_ hd
        intro t' ht'
        cases Option.some.inj ht'
        exact normalizeMimeType_ne_empty m t hn
      · rw [if_neg ho]
        exact normalizeMimeType_ne_empty m t hn
  · intro t ht ho
    unfold resolveMimeType
    rw [ht]
    dsimp only []
    rw [if_neg (by simp [ho])]
  · intro hoct
    obtain ⟨ni, heq, hsome, hnone⟩ :
        ∃ ni, resolveMimeType m f d dflt = resolveFallback f d ni dflt ∧
          (∀ t, normalizeMimeType m = some t → ni = some t) ∧
          (normalizeMimeType m = none → ni = none) := by
      rcases hoct with hn | ⟨t, hn, ho⟩
      · refine ⟨none, ?_, fun t ht => ?_, fun h => rfl⟩
        · unfold resolveMimeType; rw [hn]
        · rw [hn] at ht; cases ht
      · refine ⟨some t, ?_, fun t' ht' => ?_, fun h => ?_⟩
        · unfold resolveMimeType; rw [hn]; dsimp only []; rw [if_pos ho]
        · rw [hn] at ht'; exact (Option.some.inj ht') ▸ rfl
        · rw [hn] at h; cases h
    rw [heq]
    obtain ⟨p1, p2⟩ := resolveFallback_chain f d ni dflt
    refine ⟨p1, fun he => ?_⟩
    obtain ⟨q1, q2⟩ := p2 he
    refine ⟨q1, fun hi => ?_⟩
    obtain ⟨r1, r2⟩ := q2 hi
    exact ⟨fun t ht => r1 t (hsome t ht), fun h0 => r2 (hnone h0)⟩

theorem c10_resolveMimeType_precedence_and_nonempty_witness :
    resolveMimeType (some "image/png") none none "application/octet-stream" ≠ "" ∧
    resolveMimeType (some "image/png") none none "application/octet-stream" = "image/png" :=
  ⟨(c10_resolveMimeType_precedence_and_nonempty (some "image/png") none none
      "application/octet-stream" (by decide)).1,
   (c10_resolveMimeType_precedence_and_nonempty (some "image/png") none none
      "application/octet-stream" (by decide)).2.1 "image/png" rfl rfl⟩

end MimeTypeUtil
